import Mathlib

/-!
# Brightness normalisation (`src/main.cpp`)

A shallow embedding of `main`, `read_image`, `processing` and `write_image`.

Conventions of the embedding.

* `unsigned char` values are natural numbers below 256; the pixel buffer
  `RGB_data` is a list of them, read with `data[i]?` (a read outside the
  buffer yields `none`) and written with `List.set`.
* `int` and `long` values are integers; the width of the machine type is
  explicit where it matters: `image.height * image.width`, an `int`
  product, wraps at 32 bits (`image_size`), and the counter `int i` of the
  RGB histogram loop, compared with the `long` `image.size`, must stay in the
  range of `int` (`rgb_hist_loop`). The counters of the greyscale histogram
  loop and of the rescale loop are not checked: the `size` of a greyscale
  image is an `int` product, and `processing` reaches the rescale loop of an
  RGB image only after the histogram loop has counted over the same range.
* `long channel[256]` is a map from the bucket index to the count; a store
  outside the indices 0..255 is undefined behaviour and yields `none`.
* The OpenMP pragmas of the `for` loops are not modelled: the loops run in
  index order. In `channel_bounds` the sections of `omp parallel sections`
  run one after the other in program order, which is the program built
  without OpenMP (or run by one thread); `run_sections` runs the two
  sections of a greyscale image with their steps interleaved by a schedule.
* `exit(1)` is an error result.
* Undefined behaviour (a read outside the buffer, a store outside a
  histogram array, a signed overflow of the loop counter, a division by
  zero) is the result `none`: the theorems say nothing about what the
  compiled program does there. The definitions named `..._stray` differ in
  one point: a walk that adds an empty bucket to the element just outside
  its array stores back the value it loaded, and the run continues.
-/

set_option maxRecDepth 100000

namespace Brightness

/-- The struct `Image` (main.cpp, lines 14-20). -/
structure Image where
  RGB_data : List Nat
  width : Int
  height : Int
  type : Bool
  size : Int
deriving DecidableEq

/-- The array after the assignment `channel[k] = x`. -/
def store (ch : Nat → Int) (k : Nat) (x : Int) : Nat → Int :=
  fun j => if j = k then x else ch j

/-- The initialiser `long channel[256] = {0}`. -/
def zero_channel : Nat → Int := fun _ => 0

/-- The statement `++channel[v]`. -/
def incr (ch : Nat → Int) (v : Nat) : Nat → Int :=
  store ch v (ch v + 1)

/-- The greyscale histogram loop (lines 174-176),
`for (int i = 0; i < image.size; i++) ++channel[image.RGB_data[i]];`
with `n` the number of iterations still to run (`image.size - i`). The
counter is not checked against the range of `int`: the `size` that
`read_image` gives a greyscale image is an `int` product. -/
def grey_hist_loop (data : List Nat) : Nat → Nat → (Nat → Int) → Option (Nat → Int)
  | 0, _, ch => some ch
  | n + 1, i, ch =>
    match data[i]? with
    | none => none
    | some v => grey_hist_loop data n (i + 1) (incr ch v)

/-- The RGB histogram loop (lines 125-129), `for (int i = 0; i < image.size; i += 3)`
with `n` the number of iterations still to run. The counter `i` is an `int`
while `image.size` is a `long` that may exceed 2147483647: an iteration in
which the index `i + 2` or the increment `i += 3` does not fit an `int` is a
signed overflow, undefined behaviour: `none`. -/
def rgb_hist_loop (data : List Nat) :
    Nat → Nat → (Nat → Int) × (Nat → Int) × (Nat → Int) →
      Option ((Nat → Int) × (Nat → Int) × (Nat → Int))
  | 0, _, s => some s
  | n + 1, i, (r, g, b) =>
    if i + 2 ≤ 2147483647 ∧ i + 3 ≤ 2147483647 then
      match data[i]?, data[i + 1]?, data[i + 2]? with
      | some v0, some v1, some v2 =>
        rgb_hist_loop data n (i + 3) (incr r v0, incr g v1, incr b v2)
      | _, _, _ => none
    else none

/-- The greyscale histogram of `processing`: `channel` after the loop of
lines 172-176. The loop runs `image.size` times (none when `size <= 0`). -/
def grey_histogram (image : Image) : Option (Nat → Int) :=
  grey_hist_loop image.RGB_data image.size.toNat 0 zero_channel

/-- The three RGB histograms of `processing` (lines 120-129). The loop
variable advances by 3 while `i < image.size`: `ceil(size / 3)` iterations. -/
def rgb_histogram (image : Image) :
    Option ((Nat → Int) × (Nat → Int) × (Nat → Int)) :=
  rgb_hist_loop image.RGB_data ((image.size.toNat + 2) / 3) 0
    (zero_channel, zero_channel, zero_channel)

/-- The index of the bucket written by `channel[old_min + 1] += channel[old_min++];`
when `old_min = k` on entry. The right operand of a compound assignment is
sequenced before the left operand (C++17, [expr.ass]): `channel[k]` is read
and `old_min` becomes `k + 1` first, then the left operand
`channel[old_min + 1]` is evaluated, so the index is `(k + 1) + 1`.
(Before C++17 the two uses of `old_min` are unsequenced, which is undefined
behaviour; g++ 12 evaluates the right operand first at every `-std` level.) -/
def lower_target (k : Nat) : Int := ((k : Int) + 1) + 1

/-- The index of the bucket written by `channel[old_max - 1] += channel[old_max--];`
when `old_max = k` on entry: `old_max` becomes `k - 1` before the left
operand `channel[old_max - 1]` is evaluated, so the index is `(k - 1) - 1`. -/
def upper_target (k : Nat) : Int := ((k : Int) - 1) - 1

/-- The body of the lower walk (lines 183, 140, 150, 160) at `old_min = k`:
bucket `k` is added to the bucket `lower_target k` and `old_min` becomes
`k + 1`. A store outside `channel[0..255]` is undefined behaviour: `none`. -/
def lower_step (ch : Nat → Int) (k : Nat) : Option ((Nat → Int) × Nat) :=
  if 0 ≤ lower_target k ∧ lower_target k ≤ 255 then
    some (store ch (lower_target k).toNat (ch (lower_target k).toNat + ch k), k + 1)
  else none

/-- The body of the upper walk (lines 188, 145, 155, 165) at `old_max = k`:
bucket `k` is added to the bucket `upper_target k` and `old_max` becomes
`k - 1`. A store outside `channel[0..255]` is undefined behaviour: `none`. -/
def upper_step (ch : Nat → Int) (k : Nat) : Option ((Nat → Int) × Nat) :=
  if 0 ≤ upper_target k ∧ upper_target k ≤ 255 then
    some (store ch (upper_target k).toNat (ch (upper_target k).toNat + ch k), k - 1)
  else none

/-- The lower walk (lines 182-183, and 139-140, 149-150, 159-160),
`while (channel[k] <= noise && k < 255) channel[k + 1] += channel[k++];`
The first argument is `255 - k`, the distance left to the end of the
array: when it is 0 the test `k < 255` fails and the loop exits. -/
def lower_walk (noise : Int) : Nat → (Nat → Int) → Nat → Option ((Nat → Int) × Nat)
  | 0, ch, k => some (ch, k)
  | d + 1, ch, k =>
    if ch k ≤ noise ∧ k < 255 then
      (lower_step ch k).bind fun s => lower_walk noise d s.1 s.2
    else some (ch, k)

/-- The upper walk (lines 187-188, and 144-145, 154-155, 164-165),
`while (channel[k] <= noise && k > 0) channel[k - 1] += channel[k--];`
The first argument is `k`, the distance left to index 0: when it is 0
the test `k > 0` fails and the loop exits. -/
def upper_walk (noise : Int) : Nat → (Nat → Int) → Nat → Option ((Nat → Int) × Nat)
  | 0, ch, k => some (ch, k)
  | d + 1, ch, k =>
    if ch k ≤ noise ∧ k > 0 then
      (upper_step ch k).bind fun s => upper_walk noise d s.1 s.2
    else some (ch, k)

/-- The two walks over one histogram array, in program order: the lower
walk from 0, then the upper walk from 255 on the array as the lower walk
left it. The result is the pair of bounds. This is the block of the two
sections run by one thread; `scheduled_bounds` gives the bounds when two
threads interleave the sections. -/
def channel_bounds (noise : Int) (ch : Nat → Int) : Option (Nat × Nat) :=
  match lower_walk noise 255 ch 0 with
  | none => none
  | some (lch, lo) =>
    match upper_walk noise 255 lch 255 with
    | none => none
    | some (_, hi) => some (lo, hi)

/-- The value of a C++ `bool` used as an `int`. -/
def bool_int (p : Prop) [Decidable p] : Int := if p then 1 else 0

/-- The expression `min(r_min, min(g_min, b_min))` of line 169 after
preprocessing with `#define min(a, b) a <= b ? a : b`, that is
`r_min <= g_min <= b_min ? g_min : b_min ? r_min : g_min <= b_min ? g_min : b_min`,
which C++ parses as
`((r_min <= g_min) <= b_min) ? g_min : (b_min ? r_min : ((g_min <= b_min) ? g_min : b_min))`. -/
def expand_min (r_min g_min b_min : Int) : Int :=
  if bool_int (r_min ≤ g_min) ≤ b_min then g_min
  else if b_min ≠ 0 then r_min
  else if g_min ≤ b_min then g_min else b_min

/-- The expression `max(r_max, max(g_max, b_max))` of line 170 after
preprocessing with `#define max(a, b) a >= b ? a : b`, parsed as
`((r_max >= g_max) >= b_max) ? g_max : (b_max ? r_max : ((g_max >= b_max) ? g_max : b_max))`. -/
def expand_max (r_max g_max b_max : Int) : Int :=
  if bool_int (r_max ≥ g_max) ≥ b_max then g_max
  else if b_max ≠ 0 then r_max
  else if g_max ≥ b_max then g_max else b_max

/-- The values of `old_min` and `old_max` at line 192 in a greyscale image. -/
def grey_bounds (image : Image) (noise : Int) : Option (Int × Int) :=
  match grey_histogram image with
  | none => none
  | some ch =>
    match channel_bounds noise ch with
    | none => none
    | some b => some ((b.1 : Int), (b.2 : Int))

/-- The six walks of an RGB image (lines 131-167) in program order: the
pairs `(r_min, r_max)`, `(g_min, g_max)`, `(b_min, b_max)`. -/
def rgb_channel_bounds (image : Image) (noise : Int) :
    Option ((Nat × Nat) × (Nat × Nat) × (Nat × Nat)) :=
  match rgb_histogram image with
  | none => none
  | some (r, g, b) =>
    match channel_bounds noise r with
    | none => none
    | some rb =>
      match channel_bounds noise g with
      | none => none
      | some gb =>
        match channel_bounds noise b with
        | none => none
        | some bb => some (rb, gb, bb)

/-- The values of `old_min` and `old_max` at line 192 in an RGB image
(lines 169-170). -/
def rgb_bounds (image : Image) (noise : Int) : Option (Int × Int) :=
  match rgb_channel_bounds image noise with
  | none => none
  | some (rb, gb, bb) =>
    some (expand_min rb.1 gb.1 bb.1, expand_max rb.2 gb.2 bb.2)

/-- The values of `old_min` and `old_max` at line 192. -/
def clip_bounds (image : Image) (noise : Int) : Option (Int × Int) :=
  if image.type then rgb_bounds image noise else grey_bounds image noise

/-- The body of the rescale loop (lines 195-201) for the sample value `v`:
the new value of the sample, or `none` when the division is by zero.
The quotient is the C++ `int` division (truncation toward zero) and the
store into an `unsigned char` reduces it modulo 256. -/
def rescale_sample (old_min old_max : Int) (v : Nat) : Option Nat :=
  if (v : Int) ≤ old_min then some 0
  else if (v : Int) ≥ old_max then some 255
  else if old_max - old_min = 0 then none
  else some (((255 * ((v : Int) - old_min)).tdiv (old_max - old_min) % 256).toNat)

/-- The rescale loop (lines 194-202), with `n` the number of iterations
still to run. The counter is not checked against the range of `int`:
`processing` runs this loop after a histogram loop that has counted over
the same range. -/
def rescale_loop (old_min old_max : Int) : Nat → Nat → List Nat → Option (List Nat)
  | 0, _, data => some data
  | n + 1, i, data =>
    match data[i]? with
    | none => none
    | some v =>
      match rescale_sample old_min old_max v with
      | none => none
      | some r => rescale_loop old_min old_max n (i + 1) (data.set i r)

/-- The function `processing` (lines 117-203). -/
def processing (image : Image) (noise : Int) : Option Image :=
  match clip_bounds image noise with
  | none => none
  | some (old_min, old_max) =>
    match rescale_loop old_min old_max image.size.toNat 0 image.RGB_data with
    | none => none
    | some data => some { image with RGB_data := data }

/-- The body of the lower walk as the compiled statement executes it. The
statement loads the target, adds bucket `k` and stores the sum: when the
target lies outside `channel[0..255]` and bucket `k` holds 0, the value
stored is the value just loaded, no object changes and `old_min` becomes
`k + 1`. Inside the array this is `lower_step`. A store outside the array
that adds a non-zero count overwrites a neighbouring object: `none`. -/
def lower_step_stray (ch : Nat → Int) (k : Nat) : Option ((Nat → Int) × Nat) :=
  if 0 ≤ lower_target k ∧ lower_target k ≤ 255 then
    some (store ch (lower_target k).toNat (ch (lower_target k).toNat + ch k), k + 1)
  else if ch k = 0 then some (ch, k + 1)
  else none

/-- The body of the upper walk as the compiled statement executes it: as
`upper_step`, except that a store outside the array that adds 0 changes no
object and `old_max` becomes `k - 1`. -/
def upper_step_stray (ch : Nat → Int) (k : Nat) : Option ((Nat → Int) × Nat) :=
  if 0 ≤ upper_target k ∧ upper_target k ≤ 255 then
    some (store ch (upper_target k).toNat (ch (upper_target k).toNat + ch k), k - 1)
  else if ch k = 0 then some (ch, k - 1)
  else none

/-- The lower walk with the body `lower_step_stray`. -/
def lower_walk_stray (noise : Int) : Nat → (Nat → Int) → Nat → Option ((Nat → Int) × Nat)
  | 0, ch, k => some (ch, k)
  | d + 1, ch, k =>
    if ch k ≤ noise ∧ k < 255 then
      (lower_step_stray ch k).bind fun s => lower_walk_stray noise d s.1 s.2
    else some (ch, k)

/-- The upper walk with the body `upper_step_stray`. -/
def upper_walk_stray (noise : Int) : Nat → (Nat → Int) → Nat → Option ((Nat → Int) × Nat)
  | 0, ch, k => some (ch, k)
  | d + 1, ch, k =>
    if ch k ≤ noise ∧ k > 0 then
      (upper_step_stray ch k).bind fun s => upper_walk_stray noise d s.1 s.2
    else some (ch, k)

/-- The two walks over one histogram array in program order, as
`channel_bounds`, with the bodies `lower_step_stray` and `upper_step_stray`. -/
def channel_bounds_stray (noise : Int) (ch : Nat → Int) : Option (Nat × Nat) :=
  match lower_walk_stray noise 255 ch 0 with
  | none => none
  | some (lch, lo) =>
    match upper_walk_stray noise 255 lch 255 with
    | none => none
    | some (_, hi) => some (lo, hi)

/-- The values of `old_min` and `old_max` at line 192, as `clip_bounds`, with
the walks of `channel_bounds_stray`. -/
def clip_bounds_stray (image : Image) (noise : Int) : Option (Int × Int) :=
  if image.type then
    match rgb_histogram image with
    | none => none
    | some (r, g, b) =>
      match channel_bounds_stray noise r with
      | none => none
      | some rb =>
        match channel_bounds_stray noise g with
        | none => none
        | some gb =>
          match channel_bounds_stray noise b with
          | none => none
          | some bb =>
            some (expand_min rb.1 gb.1 bb.1, expand_max rb.2 gb.2 bb.2)
  else
    match grey_histogram image with
    | none => none
    | some ch =>
      match channel_bounds_stray noise ch with
      | none => none
      | some b => some ((b.1 : Int), (b.2 : Int))

/-- The function `processing` (lines 117-203), as `processing`, with the
bounds of `clip_bounds_stray`: a run in which a walk adds an empty bucket
to the element just outside its array goes on to the rescale loop. -/
def processing_stray (image : Image) (noise : Int) : Option Image :=
  match clip_bounds_stray image noise with
  | none => none
  | some (old_min, old_max) =>
    match rescale_loop old_min old_max image.size.toNat 0 image.RGB_data with
    | none => none
    | some data => some { image with RGB_data := data }

/-- Where a section of the `omp parallel sections` block of lines 178-190
stands: before an evaluation of the condition of its `while` loop, before an
execution of the statement of the loop, or after the loop. -/
inductive Stage where
  | test
  | body
  | finished
deriving DecidableEq

/-- The section a thread executes next: the first section of the block
(the lower walk) or the second (the upper walk). -/
inductive Turn where
  | lower
  | upper
deriving DecidableEq

/-- The state of the block of lines 178-190 while two threads execute its
sections: the shared array `channel`, `old_min` and the stage of the first
section, `old_max` and the stage of the second section. -/
structure Sections where
  channel : Nat → Int
  old_min : Nat
  lower : Stage
  old_max : Nat
  upper : Stage

/-- The state on entry to the block: `old_min = 0`, `old_max = 255`, both
sections before the first evaluation of their loop condition. -/
def sections_start (ch : Nat → Int) : Sections :=
  { channel := ch, old_min := 0, lower := Stage.test, old_max := 255, upper := Stage.test }

/-- One step of the first section (lines 182-183): an evaluation of
`channel[old_min] <= noise && old_min < 255`, or an execution of
`channel[old_min + 1] += channel[old_min++];` (`lower_step`, `none` when the
store leaves the array). A finished section does nothing. -/
def lower_section_step (noise : Int) (s : Sections) : Option Sections :=
  match s.lower with
  | Stage.test =>
    if s.channel s.old_min ≤ noise ∧ s.old_min < 255 then some { s with lower := Stage.body }
    else some { s with lower := Stage.finished }
  | Stage.body =>
    match lower_step s.channel s.old_min with
    | none => none
    | some (ch, k) => some { s with channel := ch, old_min := k, lower := Stage.test }
  | Stage.finished => some s

/-- One step of the second section (lines 187-188): an evaluation of
`channel[old_max] <= noise && old_max > 0`, or an execution of
`channel[old_max - 1] += channel[old_max--];` (`upper_step`). -/
def upper_section_step (noise : Int) (s : Sections) : Option Sections :=
  match s.upper with
  | Stage.test =>
    if s.channel s.old_max ≤ noise ∧ s.old_max > 0 then some { s with upper := Stage.body }
    else some { s with upper := Stage.finished }
  | Stage.body =>
    match upper_step s.channel s.old_max with
    | none => none
    | some (ch, k) => some { s with channel := ch, old_max := k, upper := Stage.test }
  | Stage.finished => some s

/-- The block of lines 178-190 executed by two threads whose steps are
interleaved in the order `schedule` gives them, on memory that both threads
see alike. A step is one evaluation of a loop condition or one execution of a
loop statement; threads that interleave single loads and stores can produce
every run of this kind. -/
def run_sections (noise : Int) : List Turn → Sections → Option Sections
  | [], s => some s
  | Turn.lower :: schedule, s =>
    (lower_section_step noise s).bind fun s1 => run_sections noise schedule s1
  | Turn.upper :: schedule, s =>
    (upper_section_step noise s).bind fun s1 => run_sections noise schedule s1

/-- The values of `old_min` and `old_max` after the block of lines 178-190
when `schedule` runs both sections to the end of their loops; `none` when a
store leaves the array or the schedule ends before both loops have exited. -/
def scheduled_bounds (noise : Int) (schedule : List Turn) (ch : Nat → Int) :
    Option (Nat × Nat) :=
  match run_sections noise schedule (sections_start ch) with
  | none => none
  | some s =>
    if s.lower = Stage.finished ∧ s.upper = Stage.finished then some (s.old_min, s.old_max)
    else none

/-- What holds of the two sections at threshold 0 while they run on the
histogram `ch`: the array is still `ch`, every bucket a walk has passed is
empty, and a walk that has evaluated its condition stands on an empty bucket
(before its statement) or on a non-empty one (after its loop). -/
structure ZeroInv (ch : Nat → Int) (s : Sections) : Prop where
  array : s.channel = ch
  low_le : s.old_min ≤ 254
  low_passed : ∀ j, j < s.old_min → ch j = 0
  low_body : s.lower = Stage.body → ch s.old_min = 0
  low_done : s.lower = Stage.finished → 0 < ch s.old_min
  high_ge : 1 ≤ s.old_max
  high_le : s.old_max ≤ 255
  high_passed : ∀ j, s.old_max < j → j ≤ 255 → ch j = 0
  high_body : s.upper = Stage.body → ch s.old_max = 0
  high_done : s.upper = Stage.finished → 0 < ch s.old_max

/-- The number of samples of the interleaved channel `c` (the indices
congruent to `c` modulo 3) that are equal to `k`, among the first `m`
samples. -/
def samples_upto (data : List Nat) (c k m : Nat) : Nat :=
  ((Finset.range m).filter (fun i => i % 3 = c ∧ data[i]? = some k)).card

/-- The number of samples of the interleaved channel `c` equal to `k`. -/
def samples_at (data : List Nat) (c k : Nat) : Nat :=
  samples_upto data c k data.length

/-- The sum of the 256 buckets of a histogram. -/
def bucket_sum (ch : Nat → Int) : Int := ∑ k in Finset.range 256, ch k

/-- The value the rescale loop stores for the sample value `v`. -/
def rescale_value (old_min old_max : Int) (v : Nat) : Nat :=
  if (v : Int) ≤ old_min then 0
  else if (v : Int) ≥ old_max then 255
  else ((255 * ((v : Int) - old_min)).tdiv (old_max - old_min) % 256).toNat

/-- The sum of the buckets `k`, `k - 2`, `k - 4`, ... of `h`: what the lower
walk has accumulated in bucket `k` when it arrives there. -/
def low_sum (h : Nat → Int) (k : Nat) : Int :=
  ∑ j in Finset.range (k + 1), if j % 2 = k % 2 then h j else 0

/-- The sum of the buckets `k`, `k + 2`, `k + 4`, ... (up to 255) of `h`:
what the upper walk has accumulated in bucket `k` when it arrives there. -/
def high_sum (h : Nat → Int) (k : Nat) : Int :=
  ∑ j in Finset.Ico k 256, if j % 2 = k % 2 then h j else 0

/-- The value of an `int` computation whose mathematical result is `n`:
two's complement wrap-around at 32 bits. (Signed overflow is undefined in
C++; the wrap is what the compiled multiplication yields.) -/
def wrap32 (n : Int) : Int := (n + 2147483648) % 4294967296 - 2147483648

/-- The ways `read_image` ends the process with `exit(1)`. -/
inductive Failure where
  | invalid_format
  | could_not_read
deriving DecidableEq

deriving instance DecidableEq for Except

/-- The C `isspace` in the "C" locale: space, `\t`, `\n`, `\v`, `\f`, `\r`. -/
def is_space (c : Nat) : Bool := c = 32 || (9 ≤ c && c ≤ 13)

/-- A white-space directive of a `fscanf` format (here `"\n"` and `" "`):
it consumes every white-space character up to the first other character. -/
def skip_space : List Nat → List Nat
  | [] => []
  | c :: s => if is_space c then skip_space s else c :: s

/-- The value of the character `c` as a digit (decimal digit or hexadecimal letter). -/
def digit_value (c : Nat) : Option Nat :=
  if 48 ≤ c ∧ c ≤ 57 then some (c - 48)
  else if 97 ≤ c ∧ c ≤ 102 then some (c - 87)
  else if 65 ≤ c ∧ c ≤ 70 then some (c - 55)
  else none

/-- The longest run of digits of the base `base` at the head of the input,
accumulated onto `acc`: the value and the rest of the input. -/
def scan_digits (base : Nat) : List Nat → Nat → Nat × List Nat
  | [], acc => (acc, [])
  | c :: s, acc =>
    match digit_value c with
    | none => (acc, c :: s)
    | some d => if d < base then scan_digits base s (acc * base + d) else (acc, c :: s)

/-- A number of the base `base` with at least one digit. -/
def scan_number (base : Nat) (s : List Nat) : Option (Nat × List Nat) :=
  match s with
  | [] => none
  | c :: _ =>
    match digit_value c with
    | none => none
    | some d => if d < base then some (scan_digits base s 0) else none

/-- The digits of a `%i` conversion after the optional sign: `0x` or `0X`
and hexadecimal digits, or `0` and octal digits, or decimal digits. -/
def scan_unsigned (s : List Nat) : Option (Nat × List Nat) :=
  match s with
  | c0 :: c1 :: s2 =>
    if c0 = 48 ∧ (c1 = 120 ∨ c1 = 88) then scan_number 16 s2
    else if c0 = 48 then some (scan_digits 8 (c1 :: s2) 0)
    else scan_number 10 s
  | _ => scan_number 10 s

/-- The value `strtol` returns for the digits of a number whose value is
`n`: a value outside the range of `long` is replaced by `LONG_MAX` or
`LONG_MIN`. -/
def clamp_long (n : Int) : Int :=
  if n > 9223372036854775807 then 9223372036854775807
  else if n < -9223372036854775808 then -9223372036854775808
  else n

/-- The `%i` conversion of `fscanf`: white space is skipped, then an
optional sign and the digits are read; the result is the `int` stored and
the rest of the input, or `none` on a matching failure. The C library
converts the digits as `strtol` does, to a `long` that saturates at
`LONG_MAX` and `LONG_MIN`, and stores that `long` converted to `int` (its
low 32 bits): a header number of 2^63 or more is stored as -1. -/
def scan_int (s : List Nat) : Option (Int × List Nat) :=
  match skip_space s with
  | [] => none
  | c :: s1 =>
    if c = 45 then
      match scan_unsigned s1 with
      | none => none
      | some (n, r) => some (wrap32 (clamp_long (-(n : Int))), r)
    else if c = 43 then
      match scan_unsigned s1 with
      | none => none
      | some (n, r) => some (wrap32 (clamp_long (n : Int)), r)
    else
      match scan_unsigned (c :: s1) with
      | none => none
      | some (n, r) => some (wrap32 (clamp_long (n : Int)), r)

/-- Lines 101-104 of `read_image`: `image.size = image.height * image.width;`
is a product of two `int`s, converted to `long` afterwards;
`image.size *= 3` is a `long` product (it cannot overflow 64 bits). -/
def image_size (width height : Int) (type : Bool) : Int :=
  if type then wrap32 (height * width) * 3 else wrap32 (height * width)

/-- The function `read_image` (lines 80-115) on the bytes of the input
file. `malloc` fails for a negative `size` (converted to an unsigned
number of bytes above 2^63) and succeeds otherwise. -/
def read_image (file_in : List Nat) : Except Failure Image :=
  match file_in with
  | p :: t :: s0 =>
    if (p = 80 ∧ t = 53) ∨ (p = 80 ∧ t = 54) then
      match scan_int (skip_space s0) with
      | none => Except.error Failure.invalid_format
      | some (width, s1) =>
        match scan_int (skip_space s1) with
        | none => Except.error Failure.invalid_format
        | some (height, s2) =>
          match scan_int (skip_space s2) with
          | none => Except.error Failure.invalid_format
          | some (max_value, s3) =>
            if max_value ≠ 255 ∨ width < 1 ∨ height < 1 then
              Except.error Failure.invalid_format
            else if image_size width height (decide (t = 54)) < 0 then
              Except.error Failure.could_not_read
            else if (skip_space s3).length <
                (image_size width height (decide (t = 54))).toNat then
              Except.error Failure.could_not_read
            else
              Except.ok
                { RGB_data :=
                    (skip_space s3).take (image_size width height (decide (t = 54))).toNat
                  width := width
                  height := height
                  type := decide (t = 54)
                  size := image_size width height (decide (t = 54)) }
    else Except.error Failure.invalid_format
  | _ => Except.error Failure.invalid_format

/-- The decimal digits of `n`, most significant first, as character codes;
the first argument bounds the number of digits still to print. -/
def decimal_digits : Nat → Nat → List Nat
  | 0, n => [48 + n % 10]
  | f + 1, n => if n < 10 then [48 + n] else decimal_digits f (n / 10) ++ [48 + n % 10]

/-- What `%i` prints for a non-negative `int`. -/
def decimal (n : Nat) : List Nat := decimal_digits n n

/-- What `fprintf` prints for `%i`. -/
def print_int (n : Int) : List Nat :=
  if n < 0 then 45 :: decimal n.natAbs else decimal n.toNat

/-- The function `write_image` (lines 205-214): the bytes written to the
output file, `P6` or `P5`, `"\n%i %i\n255\n"` with the width and the
height, then the first `image.size` bytes of the buffer. -/
def write_image (image : Image) : List Nat :=
  (if image.type then [80, 54] else [80, 53]) ++
    ([10] ++ print_int image.width ++ [32] ++ print_int image.height ++ [10, 50, 53, 53, 10]) ++
    image.RGB_data.take image.size.toNat

/-- The one-line diagnostics `main` and `read_image` print before `exit(1)`. -/
inductive Message where
  | invalid_arguments
  | invalid_threads
  | invalid_coefficient
  | no_input_file
  | invalid_format
  | could_not_read
  | no_output_file
deriving DecidableEq

/-- How a run of `main` ends: `exit(status)` after a diagnostic; a normal
return after `write_image` wrote `output` to the opened output stream; a call
of `write_image` on a null stream (undefined behaviour); undefined behaviour
inside `processing`. -/
inductive Outcome where
  | exit (status : Nat) (message : Message)
  | returned (output : List Nat)
  | write_image_null
  | undefined
deriving DecidableEq

/-- The function `main` (lines 26-73). Its inputs: `argc`; the value
`th_num` and the character `*endptr` left by `strtol` on `argv[1]`; the
character `*endptr` left by `strtof` on `argv[4]`; the value of
`(long)(image.height) * image.width * coef` as a function of the image (the
floating-point product is not modelled); the bytes of the input file when
`fopen(argv[2], "rb")` succeeds; whether `fopen(argv[3], "wb")` succeeds.
Line 44 tests `th_num < 0` again and line 67 tests `file_in`, as written in
the source. The second `fclose(file_in)` of line 72 is not modelled. -/
def main (argc : Int) (th_num : Int) (th_end coef_end : Nat) (noise_of : Image → Int)
    (file_in : Option (List Nat)) (file_out : Bool) : Outcome :=
  if argc ≠ 5 then Outcome.exit 1 Message.invalid_arguments
  else if th_num < 0 ∨ th_end ≠ 0 then Outcome.exit 1 Message.invalid_threads
  else if th_num < 0 ∨ coef_end ≠ 0 then Outcome.exit 1 Message.invalid_coefficient
  else
    match file_in with
    | none => Outcome.exit 1 Message.no_input_file
    | some bytes =>
      match read_image bytes with
      | Except.error Failure.invalid_format => Outcome.exit 1 Message.invalid_format
      | Except.error Failure.could_not_read => Outcome.exit 1 Message.could_not_read
      | Except.ok image =>
        match processing image (noise_of image) with
        | none => Outcome.undefined
        | some out =>
          if file_in.isNone then Outcome.exit 1 Message.no_output_file
          else if file_out then Outcome.returned (write_image out)
          else Outcome.write_image_null

theorem incr_apply (ch : Nat → Int) (v k : Nat) :
    incr ch v k = ch k + (if k = v then 1 else 0) := by
  unfold incr store
  split_ifs with h
  · rw [h]
  · simp

theorem bucket_sum_incr (ch : Nat → Int) (v : Nat) (hv : v < 256) :
    bucket_sum (incr ch v) = bucket_sum ch + 1 := by
  unfold bucket_sum
  simp only [incr_apply, Finset.sum_add_distrib, Finset.sum_ite_eq', Finset.mem_range, hv,
    if_true]

theorem bucket_sum_zero : bucket_sum zero_channel = 0 := by
  simp [bucket_sum, zero_channel]

theorem grey_hist_loop_eq (data : List Nat) :
    ∀ (n i : Nat) (ch : Nat → Int), i + n ≤ data.length →
      grey_hist_loop data n i ch =
        some (fun k => ch k + (((data.drop i).take n).count k : Nat)) := by
  intro n
  induction n with
  | zero => intro i ch _; simp [grey_hist_loop]
  | succ n ih =>
    intro i ch h
    have hi : i < data.length := by omega
    rw [grey_hist_loop, List.getElem?_eq_getElem hi]
    simp only
    rw [ih (i + 1) _ (by omega)]
    congr 1
    funext k
    rw [List.drop_eq_getElem_cons hi, List.take_succ_cons, List.count_cons, incr_apply]
    by_cases hk : k = data[i]
    · subst hk; simp; ring
    · have : ¬ data[i] = k := fun h => hk h.symm
      simp [hk, this]

theorem grey_hist_loop_sum (data : List Nat) (hb : ∀ v ∈ data, v < 256) :
    ∀ (n i : Nat) (ch ch2 : Nat → Int), grey_hist_loop data n i ch = some ch2 →
      bucket_sum ch2 = bucket_sum ch + n := by
  intro n
  induction n with
  | zero => intro i ch ch2 h; simp [grey_hist_loop] at h; subst h; simp
  | succ n ih =>
    intro i ch ch2 h
    rw [grey_hist_loop] at h
    cases hd : data[i]? with
    | none => rw [hd] at h; simp at h
    | some v =>
      rw [hd] at h
      simp only at h
      have hv : v < 256 := hb v (List.getElem?_mem hd)
      rw [ih _ _ _ h, bucket_sum_incr _ _ hv]
      push_cast; ring

theorem samples_upto_step (data : List Nat) (c k i : Nat) (hc : c < 3) (hi : i % 3 = 0) :
    samples_upto data c k (i + 3) =
      samples_upto data c k i + (if data[i + c]? = some k then 1 else 0) := by
  unfold samples_upto
  have h0 : i ∉ Finset.filter (fun j => j % 3 = c ∧ data[j]? = some k) (Finset.range i) := by
    simp
  have h1 : i + 1 ∉ Finset.filter (fun j => j % 3 = c ∧ data[j]? = some k) (Finset.range i) := by
    simp
  have h2 : i + 2 ∉ Finset.filter (fun j => j % 3 = c ∧ data[j]? = some k) (Finset.range i) := by
    simp
  have e0 : i % 3 = 0 := hi
  have e1 : (i + 1) % 3 = 1 := by omega
  have e2 : (i + 2) % 3 = 2 := by omega
  rw [show i + 3 = i + 1 + 1 + 1 from rfl, Finset.range_succ, Finset.range_succ,
    Finset.range_succ]
  simp only [Finset.filter_insert]
  rw [show i + 1 + 1 = i + 2 from rfl, e0, e1, e2]
  interval_cases c
  · simp [h0]
    split_ifs <;> simp [h0]
  · simp [h1]
    split_ifs <;> simp [h1]
  · simp [h2]
    split_ifs <;> simp [h2]

theorem rgb_hist_loop_eq (data : List Nat) :
    ∀ (n i : Nat) (r g b : Nat → Int), i % 3 = 0 → i + 3 * n ≤ data.length →
      i + 3 * n ≤ 2147483647 →
      rgb_hist_loop data n i (r, g, b) =
        some (fun k => r k + samples_upto data 0 k (i + 3 * n) - samples_upto data 0 k i,
              fun k => g k + samples_upto data 1 k (i + 3 * n) - samples_upto data 1 k i,
              fun k => b k + samples_upto data 2 k (i + 3 * n) - samples_upto data 2 k i) := by
  intro n
  induction n with
  | zero => intro i r g b _ _ _; simp [rgb_hist_loop]
  | succ n ih =>
    intro i r g b hi h hint
    have h0 : i < data.length := by omega
    have h1 : i + 1 < data.length := by omega
    have h2 : i + 2 < data.length := by omega
    have hfit : i + 2 ≤ 2147483647 ∧ i + 3 ≤ 2147483647 := by omega
    rw [rgb_hist_loop, if_pos hfit, List.getElem?_eq_getElem h0, List.getElem?_eq_getElem h1,
      List.getElem?_eq_getElem h2]
    simp only
    rw [ih (i + 3) _ _ _ (by omega) (by omega) (by omega)]
    have e : i + 3 + 3 * n = i + 3 * (n + 1) := by ring
    rw [e]
    have s0 := fun k => samples_upto_step data 0 k i (by decide) hi
    have s1 := fun k => samples_upto_step data 1 k i (by decide) hi
    have s2 := fun k => samples_upto_step data 2 k i (by decide) hi
    simp only [Nat.add_zero, List.getElem?_eq_getElem h0, List.getElem?_eq_getElem h1,
      List.getElem?_eq_getElem h2, Option.some.injEq] at s0 s1 s2
    congr 1
    refine Prod.ext ?_ (Prod.ext ?_ ?_) <;> funext k
    · simp only [incr_apply, s0 k]
      by_cases hk : k = data[i]
      · subst hk; simp; ring
      · have : ¬ data[i] = k := fun h => hk h.symm
        simp [hk, this]
    · simp only [incr_apply, s1 k]
      by_cases hk : k = data[i + 1]
      · subst hk; simp; ring
      · have : ¬ data[i + 1] = k := fun h => hk h.symm
        simp [hk, this]
    · simp only [incr_apply, s2 k]
      by_cases hk : k = data[i + 2]
      · subst hk; simp; ring
      · have : ¬ data[i + 2] = k := fun h => hk h.symm
        simp [hk, this]

theorem rgb_hist_loop_sum (data : List Nat) (hb : ∀ v ∈ data, v < 256) :
    ∀ (n i : Nat) (s t : (Nat → Int) × (Nat → Int) × (Nat → Int)),
      rgb_hist_loop data n i s = some t →
        bucket_sum t.1 = bucket_sum s.1 + n ∧ bucket_sum t.2.1 = bucket_sum s.2.1 + n ∧
          bucket_sum t.2.2 = bucket_sum s.2.2 + n := by
  intro n
  induction n with
  | zero => intro i s t h; simp [rgb_hist_loop] at h; subst h; simp
  | succ n ih =>
    intro i s t h
    obtain ⟨r, g, b⟩ := s
    rw [rgb_hist_loop] at h
    by_cases hfit : i + 2 ≤ 2147483647 ∧ i + 3 ≤ 2147483647
    swap
    · rw [if_neg hfit] at h; simp at h
    rw [if_pos hfit] at h
    cases h0 : data[i]? with
    | none => rw [h0] at h; simp at h
    | some v0 =>
      cases h1 : data[i + 1]? with
      | none => rw [h0, h1] at h; simp at h
      | some v1 =>
        cases h2 : data[i + 2]? with
        | none => rw [h0, h1, h2] at h; simp at h
        | some v2 =>
          rw [h0, h1, h2] at h
          simp only at h
          obtain ⟨a1, a2, a3⟩ := ih _ _ _ h
          rw [a1, a2, a3, bucket_sum_incr _ _ (hb v0 (List.getElem?_mem h0)),
            bucket_sum_incr _ _ (hb v1 (List.getElem?_mem h1)),
            bucket_sum_incr _ _ (hb v2 (List.getElem?_mem h2))]
          push_cast
          refine ⟨by ring, by ring, by ring⟩

theorem samples_upto_zero (data : List Nat) (c k : Nat) : samples_upto data c k 0 = 0 := by
  simp [samples_upto]

theorem size_toNat (image : Image) (hsize : image.size = image.RGB_data.length) :
    image.size.toNat = image.RGB_data.length := by
  rw [hsize]; simp

theorem grey_histogram_eq (image : Image) (hsize : image.size = image.RGB_data.length) :
    grey_histogram image = some (fun k => ((image.RGB_data.count k : Nat) : Int)) := by
  have hloop := grey_hist_loop_eq image.RGB_data image.RGB_data.length 0 zero_channel
    (by omega)
  rw [grey_histogram, size_toNat image hsize, hloop]
  simp [zero_channel]

theorem rgb_histogram_eq (image : Image) (hsize : image.size = image.RGB_data.length)
    (m : Nat) (hm : image.RGB_data.length = 3 * m) (hint : image.RGB_data.length ≤ 2147483647) :
    rgb_histogram image =
      some (fun k => (samples_at image.RGB_data 0 k : Int),
            fun k => (samples_at image.RGB_data 1 k : Int),
            fun k => (samples_at image.RGB_data 2 k : Int)) := by
  have hcnt : (image.size.toNat + 2) / 3 = m := by rw [size_toNat image hsize, hm]; omega
  have hloop := rgb_hist_loop_eq image.RGB_data m 0 zero_channel zero_channel zero_channel
    (by decide) (by omega) (by omega)
  rw [rgb_histogram, hcnt, hloop]
  simp [zero_channel, samples_upto_zero, samples_at, hm]

theorem length_rgb (image : Image)
    (hlen : (image.RGB_data.length : Int) =
      image.width * image.height * (if image.type then 3 else 1))
    (ht : image.type = true) :
    ∃ m : Nat, image.RGB_data.length = 3 * m ∧ image.width * image.height = (m : Int) := by
  rw [ht] at hlen
  simp only [if_true] at hlen
  refine ⟨image.RGB_data.length / 3, by omega, by omega⟩

theorem length_grey (image : Image)
    (hlen : (image.RGB_data.length : Int) =
      image.width * image.height * (if image.type then 3 else 1))
    (ht : image.type = false) :
    image.width * image.height = (image.RGB_data.length : Int) := by
  rw [ht] at hlen
  simp at hlen
  rw [hlen]

theorem grey_bucket_sum (data : List Nat) (hb : ∀ v ∈ data, v < 256) :
    bucket_sum (fun k => ((data.count k : Nat) : Int)) = data.length := by
  have hloop := grey_hist_loop_eq data data.length 0 zero_channel (by omega)
  have hs := grey_hist_loop_sum data hb _ _ _ _ hloop
  simp only [bucket_sum_zero, zero_add] at hs
  rw [← hs]
  simp [zero_channel]

theorem rgb_bucket_sum (data : List Nat) (hb : ∀ v ∈ data, v < 256) (m : Nat)
    (hm : data.length = 3 * m) (hint : data.length ≤ 2147483647) (c : Nat) (hc : c < 3) :
    bucket_sum (fun k => (samples_at data c k : Int)) = m := by
  have hloop := rgb_hist_loop_eq data m 0 zero_channel zero_channel zero_channel
    (by decide) (by omega) (by omega)
  have hs := rgb_hist_loop_sum data hb _ _ _ _ hloop
  dsimp only at hs
  simp only [bucket_sum_zero, zero_add, zero_channel, samples_upto_zero, Nat.cast_zero,
    sub_zero, ← hm] at hs
  unfold samples_at
  interval_cases c
  · exact hs.1
  · exact hs.2.1
  · exact hs.2.2

theorem rgb_hist_loop_overflow (data : List Nat) :
    ∀ (n i : Nat) (s : (Nat → Int) × (Nat → Int) × (Nat → Int)), i ≤ 2147483647 →
      2147483647 < i + 3 * n → rgb_hist_loop data n i s = none := by
  intro n
  induction n with
  | zero => intro i s h1 h2; omega
  | succ n ih =>
    intro i s h1 h2
    obtain ⟨r, g, b⟩ := s
    rw [rgb_hist_loop]
    by_cases hfit : i + 2 ≤ 2147483647 ∧ i + 3 ≤ 2147483647
    swap
    · rw [if_neg hfit]
    rw [if_pos hfit]
    cases h0 : data[i]? with
    | none => rfl
    | some v0 =>
      cases h1 : data[i + 1]? with
      | none => rfl
      | some v1 =>
        cases h2 : data[i + 2]? with
        | none => rfl
        | some v2 =>
          simp only
          exact ih (i + 3) _ hfit.2 (by omega)

/-- Supporting C1: the histogram of a raster whose buffer holds
`width * height * channel_count` bytes, at most 2147483647 of them (the
range of the counter `int i`): every bucket `k` holds the exact number of
samples of that channel equal to `k` (greyscale: all samples; RGB: the
samples at the indices congruent to 0, 1, 2 modulo 3), and the 256 buckets
of each channel sum to `width * height`. -/
theorem histogram_exact (image : Image)
    (hlen : (image.RGB_data.length : Int) =
      image.width * image.height * (if image.type then 3 else 1))
    (hsize : image.size = image.RGB_data.length)
    (hbyte : ∀ v ∈ image.RGB_data, v < 256)
    (hint : image.size ≤ 2147483647) :
    (image.type = false →
      ∃ ch, grey_histogram image = some ch ∧
        (∀ k, ch k = image.RGB_data.count k) ∧
        bucket_sum ch = image.width * image.height) ∧
    (image.type = true →
      ∃ r g b, rgb_histogram image = some (r, g, b) ∧
        (∀ k, r k = samples_at image.RGB_data 0 k ∧ g k = samples_at image.RGB_data 1 k ∧
          b k = samples_at image.RGB_data 2 k) ∧
        bucket_sum r = image.width * image.height ∧
        bucket_sum g = image.width * image.height ∧
        bucket_sum b = image.width * image.height) := by
  constructor
  · intro ht
    refine ⟨_, grey_histogram_eq image hsize, fun k => rfl, ?_⟩
    rw [grey_bucket_sum _ hbyte, length_grey image hlen ht]
  · intro ht
    obtain ⟨m, hm, hwh⟩ := length_rgb image hlen ht
    have hfit : image.RGB_data.length ≤ 2147483647 := by
      rw [hsize] at hint
      exact_mod_cast hint
    refine ⟨_, _, _, rgb_histogram_eq image hsize m hm hfit, fun k => ⟨rfl, rfl, rfl⟩, ?_, ?_, ?_⟩
    · rw [rgb_bucket_sum _ hbyte m hm hfit 0 (by decide), hwh]
    · rw [rgb_bucket_sum _ hbyte m hm hfit 1 (by decide), hwh]
    · rw [rgb_bucket_sum _ hbyte m hm hfit 2 (by decide), hwh]

/-- Supporting C1, instance: the exact histogram of a 2x1 RGB raster. -/
theorem histogram_exact_witness :
    (∃ r g b, rgb_histogram ⟨[7, 8, 9, 7, 0, 255], 2, 1, true, 6⟩ = some (r, g, b) ∧
      (∀ k, r k = samples_at [7, 8, 9, 7, 0, 255] 0 k ∧ g k = samples_at [7, 8, 9, 7, 0, 255] 1 k ∧
        b k = samples_at [7, 8, 9, 7, 0, 255] 2 k) ∧
      bucket_sum r = 2 * 1 ∧ bucket_sum g = 2 * 1 ∧ bucket_sum b = 2 * 1) :=
  (histogram_exact ⟨[7, 8, 9, 7, 0, 255], 2, 1, true, 6⟩ (by decide) (by decide)
    (by decide) (by decide)).2 rfl

/-- C1, failing input: the 30000x30000 RGB raster. Its buffer holds
`30000 * 30000 * 3 = 2700000000` bytes, the `size` that `read_image` computes
for the header `30000 30000`; the histogram loop of lines 125-129 counts
with `int i`, and in the iteration at `i = 2147483646` the index `i + 2`
overflows: the loop has no defined result, where the claim says that every
bucket holds the exact count. -/
theorem histogram_overflow_defect :
    image_size 30000 30000 true = 2700000000 ∧
    (List.replicate 2700000000 0).length = 30000 * 30000 * 3 ∧
    rgb_histogram ⟨List.replicate 2700000000 0, 30000, 30000, true, 2700000000⟩ = none := by
  refine ⟨by decide, List.length_replicate _ _, ?_⟩
  exact rgb_hist_loop_overflow _ 900000000 0 _ (by decide) (by decide)

theorem rescale_sample_eq (old_min old_max : Int) (v : Nat) :
    rescale_sample old_min old_max v = some (rescale_value old_min old_max v) := by
  unfold rescale_sample rescale_value
  split_ifs with h1 h2 h3
  · rfl
  · rfl
  · exfalso; omega
  · rfl

theorem rescale_quotient (old_min old_max : Int) (v : Nat) (h1 : old_min < v)
    (h2 : (v : Int) < old_max) :
    (255 * ((v : Int) - old_min)).tdiv (old_max - old_min) =
      255 * ((v : Int) - old_min) / (old_max - old_min) ∧
    0 ≤ 255 * ((v : Int) - old_min) / (old_max - old_min) ∧
    255 * ((v : Int) - old_min) / (old_max - old_min) ≤ 254 := by
  have hd : 0 < old_max - old_min := by omega
  have hn : 0 ≤ 255 * ((v : Int) - old_min) := by omega
  refine ⟨Int.tdiv_eq_ediv hn hd.le, Int.ediv_nonneg hn hd.le, ?_⟩
  have : 255 * ((v : Int) - old_min) / (old_max - old_min) < 255 :=
    Int.ediv_lt_of_lt_mul hd (by nlinarith)
  omega

theorem rescale_value_mid (old_min old_max : Int) (v : Nat) (h1 : old_min < v)
    (h2 : (v : Int) < old_max) :
    (rescale_value old_min old_max v : Int) =
      255 * ((v : Int) - old_min) / (old_max - old_min) := by
  obtain ⟨e, a, b⟩ := rescale_quotient old_min old_max v h1 h2
  unfold rescale_value
  rw [if_neg (by omega), if_neg (by omega), e, Int.emod_eq_of_lt a (by omega),
    Int.toNat_of_nonneg a]

theorem rescale_value_le (old_min old_max : Int) (v : Nat) :
    rescale_value old_min old_max v ≤ 255 := by
  by_cases h1 : (v : Int) ≤ old_min
  · simp [rescale_value, h1]
  · by_cases h2 : (v : Int) ≥ old_max
    · simp [rescale_value, h1, h2]
    · have := rescale_value_mid old_min old_max v (by omega) (by omega)
      have := rescale_quotient old_min old_max v (by omega) (by omega)
      omega

theorem rescale_loop_eq (old_min old_max : Int) :
    ∀ (n i : Nat) (data : List Nat), i + n ≤ data.length →
      ∃ out, rescale_loop old_min old_max n i data = some out ∧ out.length = data.length ∧
        ∀ j, out[j]? =
          if i ≤ j ∧ j < i + n then (data[j]?).map (rescale_value old_min old_max)
          else data[j]? := by
  intro n
  induction n with
  | zero =>
    intro i data _
    refine ⟨data, rfl, rfl, fun j => ?_⟩
    rw [if_neg (by omega)]
  | succ n ih =>
    intro i data h
    have hi : i < data.length := by omega
    obtain ⟨out, ho, hl, hj⟩ := ih (i + 1) (data.set i (rescale_value old_min old_max data[i]))
      (by rw [List.length_set]; omega)
    refine ⟨out, ?_, by rw [hl, List.length_set], fun j => ?_⟩
    · rw [rescale_loop, List.getElem?_eq_getElem hi]
      simp only [rescale_sample_eq]
      exact ho
    · rw [hj j, List.getElem?_set]
      by_cases hji : i = j
      · subst hji
        simp [hi]
      · by_cases hlt : i + 1 ≤ j ∧ j < i + 1 + n
        · rw [if_pos hlt, if_neg hji, if_pos (by omega)]
        · rw [if_neg hlt, if_neg hji, if_neg (by omega)]

theorem rescale_loop_map (old_min old_max : Int) (data : List Nat) :
    rescale_loop old_min old_max data.length 0 data =
      some (data.map (rescale_value old_min old_max)) := by
  obtain ⟨out, ho, _, hj⟩ := rescale_loop_eq old_min old_max data.length 0 data (by omega)
  rw [ho]
  congr 1
  apply List.ext_getElem?
  intro j
  rw [hj j, List.getElem?_map]
  by_cases h : j < data.length
  · rw [if_pos (by omega)]
  · rw [if_neg (by omega), List.getElem?_eq_none (by omega)]
    rfl

theorem processing_eq (image : Image) (noise : Int) (old_min old_max : Int)
    (hsize : image.size = image.RGB_data.length)
    (hb : clip_bounds image noise = some (old_min, old_max)) :
    processing image noise =
      some { image with RGB_data := image.RGB_data.map (rescale_value old_min old_max) } := by
  have hn : image.size.toNat = image.RGB_data.length := by rw [hsize]; simp
  unfold processing
  rw [hb]
  simp only
  rw [hn, rescale_loop_map]

/-- C2. For a sample value `v` and bounds `lower`, `upper`, the rescale step
stores 0 if `v <= lower`, otherwise 255 if `v >= upper`, otherwise the floor
of `255 * (v - lower) / (upper - lower)`; in the last case the quotient lies
in 0..254, so the 8-bit store keeps it unchanged. -/
theorem rescale_definition (lower upper v : Nat) :
    ∃ out, rescale_sample lower upper v = some out ∧
      (v ≤ lower → out = 0) ∧
      (lower < v → upper ≤ v → out = 255) ∧
      (lower < v → v < upper →
        (out : Int) = ⌊(255 * ((v : ℚ) - lower)) / ((upper : ℚ) - lower)⌋ ∧
        0 ≤ ⌊(255 * ((v : ℚ) - lower)) / ((upper : ℚ) - lower)⌋ ∧
        ⌊(255 * ((v : ℚ) - lower)) / ((upper : ℚ) - lower)⌋ ≤ 254) := by
  refine ⟨_, rescale_sample_eq _ _ _, ?_, ?_, ?_⟩
  · intro h
    have : (v : Int) ≤ lower := by exact_mod_cast h
    simp [rescale_value, this]
  · intro h1 h2
    have a : ¬ (v : Int) ≤ lower := by omega
    have b : (v : Int) ≥ upper := by exact_mod_cast h2
    simp [rescale_value, a, b]
  · intro h1 h2
    have a : (lower : Int) < v := by exact_mod_cast h1
    have b : (v : Int) < upper := by exact_mod_cast h2
    have hq := rescale_quotient lower upper v a b
    have hm := rescale_value_mid lower upper v a b
    have hfl : ⌊(255 * ((v : ℚ) - lower)) / ((upper : ℚ) - lower)⌋ =
        255 * ((v : Int) - lower) / ((upper : Int) - lower) := by
      have e := Rat.floor_intCast_div_natCast (255 * ((v : Int) - lower)) (upper - lower)
      have hc : ((upper - lower : Nat) : Int) = (upper : Int) - lower := by omega
      have hcq : ((upper - lower : Nat) : ℚ) = (upper : ℚ) - lower := by
        have : lower ≤ upper := by omega
        push_cast [Nat.cast_sub this]; ring
      rw [hc, hcq] at e
      rw [← e]
      push_cast
      rfl
    rw [hfl]
    exact ⟨hm, hq.2.1, hq.2.2⟩

/-- C2, instance: bounds 10 and 245, sample 100. -/
theorem rescale_definition_witness :
    ∃ out, rescale_sample (10 : Nat) (245 : Nat) 100 = some out ∧
      (100 ≤ 10 → out = 0) ∧
      (10 < 100 → 245 ≤ 100 → out = 255) ∧
      (10 < 100 → 100 < 245 →
        (out : Int) = ⌊(255 * (((100 : Nat) : ℚ) - (10 : Nat))) / (((245 : Nat) : ℚ) - (10 : Nat))⌋ ∧
        0 ≤ ⌊(255 * (((100 : Nat) : ℚ) - (10 : Nat))) / (((245 : Nat) : ℚ) - (10 : Nat))⌋ ∧
        ⌊(255 * (((100 : Nat) : ℚ) - (10 : Nat))) / (((245 : Nat) : ℚ) - (10 : Nat))⌋ ≤ 254) :=
  rescale_definition 10 245 100

theorem rescale_value_id (v : Nat) (hv : v < 256) : rescale_value 0 255 v = v := by
  unfold rescale_value
  split_ifs with h1 h2
  · omega
  · omega
  · have e : (255 * ((v : Int) - 0)).tdiv (255 - 0) = v := by
      rw [Int.tdiv_eq_ediv (by omega) (by omega)]
      omega
    rw [e]
    omega

theorem lower_step_eq (ch : Nat → Int) (k : Nat) :
    lower_step ch k =
      if k + 2 ≤ 255 then some (store ch (k + 2) (ch (k + 2) + ch k), k + 1) else none := by
  unfold lower_step lower_target
  have e : (((k : Int) + 1) + 1).toNat = k + 2 := by omega
  by_cases h : k + 2 ≤ 255
  · rw [if_pos (by omega), if_pos h, e]
  · rw [if_neg (by omega), if_neg h]

theorem upper_step_eq (ch : Nat → Int) (k : Nat) (hk : k ≤ 255) :
    upper_step ch k =
      if 2 ≤ k then some (store ch (k - 2) (ch (k - 2) + ch k), k - 1) else none := by
  unfold upper_step upper_target
  have e : (((k : Int) - 1) - 1).toNat = k - 2 := by omega
  by_cases h : 2 ≤ k
  · rw [if_pos ⟨by omega, by omega⟩, if_pos h, e]
  · rw [if_neg (by omega), if_neg h]

theorem low_sum_zero (h : Nat → Int) : low_sum h 0 = h 0 := by
  simp [low_sum]

theorem low_sum_one (h : Nat → Int) : low_sum h 1 = h 1 := by
  simp [low_sum, Finset.sum_range_succ]

theorem low_sum_add_two (h : Nat → Int) (k : Nat) :
    low_sum h (k + 2) = h (k + 2) + low_sum h k := by
  unfold low_sum
  have e : (k + 2) % 2 = k % 2 := by omega
  rw [show k + 2 + 1 = (k + 1) + 1 + 1 from rfl, Finset.sum_range_succ, Finset.sum_range_succ, e]
  have e1 : ¬ (k + 1) % 2 = k % 2 := by omega
  rw [if_neg e1, if_pos (by omega)]
  ring

theorem high_sum_above (h : Nat → Int) (k : Nat) (hk : 256 ≤ k) : high_sum h k = 0 := by
  unfold high_sum
  rw [Finset.Ico_eq_empty (by omega)]
  rfl

theorem high_sum_step (h : Nat → Int) (k : Nat) (hk : k ≤ 255) :
    high_sum h k = h k + high_sum h (k + 2) := by
  by_cases h255 : k = 255
  · subst h255
    rw [high_sum_above h 257 (by omega)]
    unfold high_sum
    rw [Finset.sum_eq_sum_Ico_succ_bot (by omega), Finset.Ico_eq_empty (by omega), if_pos rfl]
    simp
  · unfold high_sum
    have e : (k + 2) % 2 = k % 2 := by omega
    have e1 : ¬ (k + 1) % 2 = k % 2 := by omega
    rw [Finset.sum_eq_sum_Ico_succ_bot (by omega), Finset.sum_eq_sum_Ico_succ_bot (by omega),
      if_pos rfl, if_neg e1, e]
    ring

theorem low_sum_nonneg (h : Nat → Int) (hh : ∀ j, 0 ≤ h j) (k : Nat) : 0 ≤ low_sum h k := by
  unfold low_sum
  exact Finset.sum_nonneg (fun j _ => by split_ifs <;> simp [hh j])

theorem high_sum_nonneg (h : Nat → Int) (hh : ∀ j, 0 ≤ h j) (k : Nat) : 0 ≤ high_sum h k := by
  unfold high_sum
  exact Finset.sum_nonneg (fun j _ => by split_ifs <;> simp [hh j])

theorem high_sum_congr (a h : Nat → Int) (k : Nat) (hk : ∀ j, k ≤ j → a j = h j) :
    high_sum a k = high_sum h k := by
  unfold high_sum
  exact Finset.sum_congr rfl (fun j hj => by rw [hk j (Finset.mem_Ico.mp hj).1])

theorem exists_pos_of_low_sum (h : Nat → Int) (k : Nat) (hp : 0 < low_sum h k) :
    ∃ j, j ≤ k ∧ 0 < h j := by
  by_contra hn
  push_neg at hn
  have : low_sum h k ≤ 0 :=
    Finset.sum_nonpos (fun j hj => by
      have := Finset.mem_range.mp hj
      split_ifs
      · exact hn j (by omega)
      · exact le_refl _)
  omega

theorem exists_pos_of_high_sum (h : Nat → Int) (k : Nat) (hp : 0 < high_sum h k) :
    ∃ j, k ≤ j ∧ j ≤ 255 ∧ 0 < h j := by
  by_contra hn
  push_neg at hn
  have : high_sum h k ≤ 0 :=
    Finset.sum_nonpos (fun j hj => by
      have := Finset.mem_Ico.mp hj
      split_ifs
      · exact hn j this.1 (by omega)
      · exact le_refl _)
  omega

theorem lower_walk_succ (noise : Int) (d : Nat) (ch : Nat → Int) (k : Nat) :
    lower_walk noise (d + 1) ch k =
      if ch k ≤ noise ∧ k < 255 then
        (lower_step ch k).bind fun s => lower_walk noise d s.1 s.2
      else some (ch, k) := rfl

theorem upper_walk_succ (noise : Int) (d : Nat) (ch : Nat → Int) (k : Nat) :
    upper_walk noise (d + 1) ch k =
      if ch k ≤ noise ∧ k > 0 then
        (upper_step ch k).bind fun s => upper_walk noise d s.1 s.2
      else some (ch, k) := rfl

/-- The lower walk from position `k`, started in an array that holds the
accumulated sums up to `k + 1` and the histogram `h` above. -/
theorem lower_walk_inv (noise : Int) (h : Nat → Int) :
    ∀ (d : Nat) (ch : Nat → Int) (k : Nat), d + k = 255 →
      (∀ j, j ≤ k + 1 → ch j = low_sum h j) → (∀ j, k + 2 ≤ j → ch j = h j) →
      (∀ j, j < k → low_sum h j ≤ noise) →
      (∀ r, lower_walk noise d ch k = some r →
        k ≤ r.2 ∧ r.2 ≤ 255 ∧ (k ≤ 254 → r.2 ≤ 254) ∧
        (∀ j, j ≤ r.2 + 1 → r.1 j = low_sum h j) ∧ (∀ j, r.2 + 2 ≤ j → r.1 j = h j) ∧
        (∀ j, j < r.2 → low_sum h j ≤ noise) ∧ (r.2 < 255 → noise < low_sum h r.2)) ∧
      (lower_walk noise d ch k = none → ∀ j, j ≤ 254 → low_sum h j ≤ noise) := by
  intro d
  induction d with
  | zero =>
    intro ch k hd h1 h2 h3
    rw [show lower_walk noise 0 ch k = some (ch, k) from rfl]
    refine ⟨fun r hr => ?_, fun hn => by simp at hn⟩
    obtain rfl : (ch, k) = r := by simpa using hr
    exact ⟨le_refl _, by omega, fun hk => by omega, h1, h2, h3, fun hk => by omega⟩
  | succ d ih =>
    intro ch k hd h1 h2 h3
    by_cases hc : ch k ≤ noise ∧ k < 255
    · have hpass : ∀ j, j < k + 1 → low_sum h j ≤ noise := fun j hj => by
        by_cases e : j = k
        · rw [e, ← h1 k (by omega)]; exact hc.1
        · exact h3 j (by omega)
      by_cases hin : k + 2 ≤ 255
      · have hstep : lower_walk noise (d + 1) ch k =
            lower_walk noise d (store ch (k + 2) (ch (k + 2) + ch k)) (k + 1) := by
          rw [lower_walk_succ, if_pos hc, lower_step_eq, if_pos hin]; rfl
        rw [hstep]
        have := ih (store ch (k + 2) (ch (k + 2) + ch k)) (k + 1) (by omega)
          (fun j hj => by
            unfold store
            by_cases e : j = k + 2
            · rw [if_pos e, e, low_sum_add_two, h1 k (by omega), h2 (k + 2) (le_refl _)]
            · rw [if_neg e]; exact h1 j (by omega))
          (fun j hj => by
            unfold store
            rw [if_neg (by omega)]; exact h2 j (by omega))
          hpass
        refine ⟨fun r hr => ?_, this.2⟩
        obtain ⟨a1, a2, a3, a4, a5, a6, a7⟩ := this.1 r hr
        exact ⟨by omega, a2, fun _ => a3 (by omega), a4, a5, a6, a7⟩
      · have hstep : lower_walk noise (d + 1) ch k = none := by
          rw [lower_walk_succ, if_pos hc, lower_step_eq, if_neg hin]; rfl
        rw [hstep]
        refine ⟨fun r hr => by simp at hr, fun _ j hj => hpass j (by omega)⟩
    · have hstop : lower_walk noise (d + 1) ch k = some (ch, k) := by
        rw [lower_walk_succ, if_neg hc]
      rw [hstop]
      refine ⟨fun r hr => ?_, fun hn => by simp at hn⟩
      obtain rfl : (ch, k) = r := by simpa using hr
      refine ⟨le_refl _, by omega, fun hk => hk, h1, h2, h3, fun hk => ?_⟩
      rw [← h1 k (by omega)]
      by_contra hle
      exact hc ⟨by omega, hk⟩

/-- The upper walk from position `k`, started in an array that holds the
accumulated sums of the array `a` from `k - 1` up and `a` itself below. -/
theorem upper_walk_inv (noise : Int) (a : Nat → Int) :
    ∀ (d : Nat) (ch : Nat → Int) (k : Nat), d = k → k ≤ 255 →
      (∀ j, k ≤ j + 1 → j ≤ 255 → ch j = high_sum a j) → (∀ j, j + 1 < k → ch j = a j) →
      (∀ j, k < j → j ≤ 255 → high_sum a j ≤ noise) →
      (∀ r, upper_walk noise d ch k = some r →
        r.2 ≤ k ∧ (1 ≤ k → 1 ≤ r.2) ∧
        (∀ j, r.2 ≤ j + 1 → j ≤ 255 → r.1 j = high_sum a j) ∧
        (∀ j, j + 1 < r.2 → r.1 j = a j) ∧
        (∀ j, r.2 < j → j ≤ 255 → high_sum a j ≤ noise) ∧
        (0 < r.2 → noise < high_sum a r.2)) ∧
      (upper_walk noise d ch k = none → ∀ j, 1 ≤ j → j ≤ 255 → high_sum a j ≤ noise) := by
  intro d
  induction d with
  | zero =>
    intro ch k hd hk h1 h2 h3
    rw [show upper_walk noise 0 ch k = some (ch, k) from rfl]
    refine ⟨fun r hr => ?_, fun hn => by simp at hn⟩
    obtain rfl : (ch, k) = r := by simpa using hr
    exact ⟨le_refl _, fun hk => by omega, h1, h2, h3, fun hk => by omega⟩
  | succ d ih =>
    intro ch k hd hk h1 h2 h3
    by_cases hc : ch k ≤ noise ∧ k > 0
    · have hpass : ∀ j, k - 1 < j → j ≤ 255 → high_sum a j ≤ noise := fun j hj hj2 => by
        by_cases e : j = k
        · rw [e, ← h1 k (by omega) hk]; exact hc.1
        · exact h3 j (by omega) hj2
      by_cases hin : 2 ≤ k
      · have hstep : upper_walk noise (d + 1) ch k =
            upper_walk noise d (store ch (k - 2) (ch (k - 2) + ch k)) (k - 1) := by
          rw [upper_walk_succ, if_pos hc, upper_step_eq _ _ hk, if_pos hin]; rfl
        rw [hstep]
        have := ih (store ch (k - 2) (ch (k - 2) + ch k)) (k - 1) (by omega) (by omega)
          (fun j hj hj2 => by
            unfold store
            by_cases e : j = k - 2
            · rw [if_pos e, e, high_sum_step a (k - 2) (by omega), h1 k (by omega) hk,
                h2 (k - 2) (by omega), show k - 2 + 2 = k by omega]
            · rw [if_neg e]; exact h1 j (by omega) hj2)
          (fun j hj => by
            unfold store
            rw [if_neg (by omega)]; exact h2 j (by omega))
          hpass
        refine ⟨fun r hr => ?_, this.2⟩
        obtain ⟨a1, a2, a3, a4, a5, a6⟩ := this.1 r hr
        exact ⟨by omega, fun _ => a2 (by omega), a3, a4, a5, a6⟩
      · have hstep : upper_walk noise (d + 1) ch k = none := by
          rw [upper_walk_succ, if_pos hc, upper_step_eq _ _ hk, if_neg hin]; rfl
        rw [hstep]
        refine ⟨fun r hr => by simp at hr, fun _ j hj hj2 => hpass j (by omega) hj2⟩
    · have hstop : upper_walk noise (d + 1) ch k = some (ch, k) := by
        rw [upper_walk_succ, if_neg hc]
      rw [hstop]
      refine ⟨fun r hr => ?_, fun hn => by simp at hn⟩
      obtain rfl : (ch, k) = r := by simpa using hr
      refine ⟨le_refl _, fun hk => hk, h1, h2, h3, fun hk0 => ?_⟩
      rw [← h1 k (by omega) hk]
      by_contra hle
      exact hc ⟨by omega, hk0⟩

theorem lower_walk_spec (noise : Int) (h : Nat → Int) :
    (∀ r, lower_walk noise 255 h 0 = some r →
      r.2 ≤ 254 ∧ (∀ j, j ≤ r.2 + 1 → r.1 j = low_sum h j) ∧
      (∀ j, r.2 + 2 ≤ j → r.1 j = h j) ∧
      (∀ j, j < r.2 → low_sum h j ≤ noise) ∧ noise < low_sum h r.2) ∧
    (lower_walk noise 255 h 0 = none → ∀ j, j ≤ 254 → low_sum h j ≤ noise) := by
  have := lower_walk_inv noise h 255 h 0 rfl
    (fun j hj => by
      rcases Nat.le_one_iff_eq_zero_or_eq_one.mp hj with e | e
      · rw [e, low_sum_zero]
      · rw [e, low_sum_one])
    (fun _ _ => rfl) (fun j hj => by omega)
  refine ⟨fun r hr => ?_, this.2⟩
  obtain ⟨_, _, a3, a4, a5, a6, a7⟩ := this.1 r hr
  have h254 := a3 (by omega)
  exact ⟨h254, a4, a5, a6, a7 (by omega)⟩

theorem high_sum_top (a : Nat → Int) (j : Nat) (h1 : 254 ≤ j) (h2 : j ≤ 255) :
    high_sum a j = a j := by
  rw [high_sum_step a j h2, high_sum_above a (j + 2) (by omega)]
  ring

theorem upper_walk_spec (noise : Int) (a : Nat → Int) :
    (∀ r, upper_walk noise 255 a 255 = some r →
      1 ≤ r.2 ∧ r.2 ≤ 255 ∧ (∀ j, r.2 < j → j ≤ 255 → high_sum a j ≤ noise) ∧
      noise < high_sum a r.2) ∧
    (upper_walk noise 255 a 255 = none → ∀ j, 1 ≤ j → j ≤ 255 → high_sum a j ≤ noise) := by
  have := upper_walk_inv noise a 255 a 255 rfl (le_refl _)
    (fun j h1 h2 => (high_sum_top a j (by omega) h2).symm)
    (fun _ _ => rfl) (fun j h1 h2 => by omega)
  refine ⟨fun r hr => ?_, this.2⟩
  obtain ⟨a1, a2, _, _, a5, a6⟩ := this.1 r hr
  have h1 := a2 (by omega)
  exact ⟨h1, a1, a5, a6 (by omega)⟩

/-- What the two walks of one channel establish when both stay inside the
array: `lch` is the array as the lower walk leaves it, on which the upper
walk runs. -/
theorem channel_bounds_walks (noise : Int) (h : Nat → Int) (lo hi : Nat)
    (hb : channel_bounds noise h = some (lo, hi)) :
    ∃ lch : Nat → Int,
      lo ≤ 254 ∧ 1 ≤ hi ∧ hi ≤ 255 ∧
      (∀ j, j ≤ lo + 1 → lch j = low_sum h j) ∧ (∀ j, lo + 2 ≤ j → lch j = h j) ∧
      (∀ j, j < lo → low_sum h j ≤ noise) ∧ noise < low_sum h lo ∧
      (∀ j, hi < j → j ≤ 255 → high_sum lch j ≤ noise) ∧ noise < high_sum lch hi := by
  unfold channel_bounds at hb
  cases hl : lower_walk noise 255 h 0 with
  | none => rw [hl] at hb; simp at hb
  | some r =>
    rw [hl] at hb
    obtain ⟨lch, lo'⟩ := r
    simp only at hb
    cases hu : upper_walk noise 255 lch 255 with
    | none => rw [hu] at hb; simp at hb
    | some s =>
      rw [hu] at hb
      obtain ⟨uch, hi'⟩ := s
      simp only [Option.some.injEq, Prod.mk.injEq] at hb
      obtain ⟨rfl, rfl⟩ := hb
      obtain ⟨l1, l2, l3, l4, l5⟩ := (lower_walk_spec noise h).1 _ hl
      obtain ⟨u1, u2, u3, u4⟩ := (upper_walk_spec noise lch).1 _ hu
      exact ⟨lch, l1, u1, u2, l2, l3, l4, l5, u3, u4⟩

theorem low_sum_ge (h : Nat → Int) (hh : ∀ j, 0 ≤ h j) (k : Nat) : h k ≤ low_sum h k := by
  rcases Nat.lt_or_ge k 2 with hk | hk
  · interval_cases k
    · rw [low_sum_zero]
    · rw [low_sum_one]
  · obtain ⟨m, rfl⟩ : ∃ m, k = m + 2 := ⟨k - 2, by omega⟩
    rw [low_sum_add_two]
    have := low_sum_nonneg h hh m
    omega

theorem high_sum_ge (a : Nat → Int) (ha : ∀ j, 0 ≤ a j) (k : Nat) (hk : k ≤ 255) :
    a k ≤ high_sum a k := by
  rw [high_sum_step a k hk]
  have := high_sum_nonneg a ha (k + 2)
  omega

/-- A bucket between 1 and 254 with more than `noise` samples stops both
walks inside the array: the bound search is defined. -/
theorem channel_bounds_defined (noise : Int) (h : Nat → Int) (hh : ∀ j, 0 ≤ h j)
    (v : Nat) (hv1 : 1 ≤ v) (hv2 : v ≤ 254) (hv : noise < h v) :
    ∃ lo hi, channel_bounds noise h = some (lo, hi) := by
  unfold channel_bounds
  cases hl : lower_walk noise 255 h 0 with
  | none =>
    have := (lower_walk_spec noise h).2 hl v hv2
    have := low_sum_ge h hh v
    omega
  | some r =>
    obtain ⟨lch, lo⟩ := r
    simp only
    obtain ⟨l1, l2, l3, _, _⟩ := (lower_walk_spec noise h).1 _ hl
    simp only at l1 l2 l3
    have hlch : ∀ j, h j ≤ lch j := fun j => by
      by_cases hj : j ≤ lo + 1
      · rw [l2 j hj]; exact low_sum_ge h hh j
      · rw [l3 j (by omega)]
    have hpos : ∀ j, 0 ≤ lch j := fun j => le_trans (hh j) (hlch j)
    cases hu : upper_walk noise 255 lch 255 with
    | none =>
      have := (upper_walk_spec noise lch).2 hu v hv1 (by omega)
      have := high_sum_ge lch hpos v (by omega)
      have := hlch v
      omega
    | some s => exact ⟨lo, s.2, rfl⟩

/-- When both walks stay inside the array of a histogram with non-negative
counts, the upper walk stops at the latest on the bucket where the lower
walk stopped. -/
theorem channel_bounds_ordered (noise : Int) (h : Nat → Int) (hh : ∀ j, 0 ≤ h j)
    (lo hi : Nat) (hb : channel_bounds noise h = some (lo, hi)) : lo ≤ hi := by
  obtain ⟨lch, a1, a2, a3, a4, a5, a6, a7, a8, a9⟩ := channel_bounds_walks noise h lo hi hb
  by_contra hlt
  have hpos : ∀ j, 0 ≤ lch j := fun j => by
    by_cases hj : j ≤ lo + 1
    · rw [a4 j hj]; exact low_sum_nonneg h hh j
    · rw [a5 j (by omega)]; exact hh j
  have hpass := a8 lo (by omega) (by omega)
  have := high_sum_ge lch hpos lo (by omega)
  rw [a4 lo (by omega)] at this
  omega

theorem grey_clip_bounds (image : Image) (noise : Int) (lower upper : Int)
    (ht : image.type = false) (hsize : image.size = image.RGB_data.length)
    (hb : clip_bounds image noise = some (lower, upper)) :
    ∃ lo hi : Nat,
      channel_bounds noise (fun k => ((image.RGB_data.count k : Nat) : Int)) = some (lo, hi) ∧
      lower = lo ∧ upper = hi := by
  simp only [clip_bounds, ht, Bool.false_eq_true, if_false, grey_bounds,
    grey_histogram_eq image hsize] at hb
  cases hc : channel_bounds noise (fun k => ((image.RGB_data.count k : Nat) : Int)) with
  | none => rw [hc] at hb; simp at hb
  | some b =>
    rw [hc] at hb
    simp only [Option.some.injEq, Prod.mk.injEq] at hb
    exact ⟨b.1, b.2, rfl, hb.1.symm, hb.2.symm⟩

theorem count_nonneg (data : List Nat) (j : Nat) : (0 : Int) ≤ ((data.count j : Nat) : Int) :=
  Int.ofNat_nonneg _

/-- C4, amended. For every raster and threshold for which the bound search
completes, `processing` returns, and every sample whose original value is
above the lower clipping bound and at least the upper clipping bound is
rewritten to exactly 255. -/
theorem upper_saturation (image : Image) (noise : Int) (old_min old_max : Int)
    (hsize : image.size = image.RGB_data.length)
    (hb : clip_bounds image noise = some (old_min, old_max)) :
    ∃ out, processing image noise = some out ∧
      out.RGB_data.length = image.RGB_data.length ∧
      ∀ (i v : Nat), image.RGB_data[i]? = some v → old_min < (v : Int) → old_max ≤ (v : Int) →
        out.RGB_data[i]? = some 255 := by
  refine ⟨_, processing_eq image noise old_min old_max hsize hb, by simp, ?_⟩
  intro i v hv h1 h2
  simp only [List.getElem?_map, hv, Option.map_some']
  congr 1
  unfold rescale_value
  rw [if_neg (by omega), if_pos h2]

/-- C7. For a greyscale raster and a threshold `t >= 0`, whenever the bound
search ends with `lower < upper`, `processing` returns and the processed
raster contains a sample equal to 0 and a sample equal to 255. -/
theorem full_output_range (image : Image) (noise : Int) (lower upper : Int)
    (ht : image.type = false)
    (hsize : image.size = image.RGB_data.length)
    (h0 : 0 ≤ noise)
    (hb : clip_bounds image noise = some (lower, upper))
    (hlt : lower < upper) :
    ∃ out, processing image noise = some out ∧ 0 ∈ out.RGB_data ∧ 255 ∈ out.RGB_data := by
  obtain ⟨lo, hi, hc, rfl, rfl⟩ := grey_clip_bounds image noise lower upper ht hsize hb
  obtain ⟨lch, a1, a2, a3, a4, a5, a6, a7, a8, a9⟩ := channel_bounds_walks noise _ lo hi hc
  have hlt' : lo < hi := by exact_mod_cast hlt
  refine ⟨_, processing_eq image noise lo hi hsize hb, ?_, ?_⟩
  · obtain ⟨j, hj1, hj2⟩ := exists_pos_of_low_sum _ _ (lt_of_le_of_lt h0 a7)
    have hmem : j ∈ image.RGB_data := List.count_pos_iff.mp (by exact_mod_cast hj2)
    simp only [List.mem_map]
    refine ⟨j, hmem, ?_⟩
    unfold rescale_value
    rw [if_pos (by omega)]
  · have hsum : 0 < high_sum (fun k => ((image.RGB_data.count k : Nat) : Int)) hi := by
      by_cases hc2 : lo + 2 ≤ hi
      · rw [high_sum_congr lch _ hi (fun j hj => a5 j (by omega))] at a9
        omega
      · have he : hi = lo + 1 := by omega
        rw [high_sum_step lch hi a3,
          high_sum_congr lch _ (hi + 2) (fun j hj => a5 j (by omega)), a4 hi (by omega)] at a9
        rw [high_sum_step _ hi a3]
        rcases Nat.eq_zero_or_pos lo with hz | hp
        · rw [he, hz, low_sum_one] at a9
          rw [he, hz]
          simp only [Nat.zero_add, Nat.reduceAdd] at a9 ⊢
          omega
        · obtain ⟨m, hm⟩ : ∃ m, lo = m + 1 := ⟨lo - 1, by omega⟩
          have hpass := a6 m (by omega)
          rw [he, hm, low_sum_add_two] at a9
          rw [he, hm]
          simp only [Nat.add_assoc, Nat.reduceAdd] at a9 ⊢
          omega
    obtain ⟨j, hj1, hj2, hj3⟩ := exists_pos_of_high_sum _ _ hsum
    have hmem : j ∈ image.RGB_data := List.count_pos_iff.mp (by exact_mod_cast hj3)
    simp only [List.mem_map]
    refine ⟨j, hmem, ?_⟩
    unfold rescale_value
    rw [if_neg (by omega), if_pos (by omega)]

/-- Greyscale part of C6 (supporting): a greyscale raster that contains a
sample 0 and a sample 255 is left unchanged by `processing` with threshold 0. -/
theorem identity_grey (image : Image)
    (ht : image.type = false)
    (hsize : image.size = image.RGB_data.length)
    (hbyte : ∀ v ∈ image.RGB_data, v < 256)
    (hmin : 0 ∈ image.RGB_data) (hmax : 255 ∈ image.RGB_data) :
    processing image 0 = some image := by
  have p0 : ¬ (((image.RGB_data.count 0 : Nat) : Int) ≤ 0 ∧ 0 < 255) := by
    have : 0 < image.RGB_data.count 0 := List.count_pos_iff.mpr hmin
    omega
  have p255 : ¬ (((image.RGB_data.count 255 : Nat) : Int) ≤ 0 ∧ 255 > 0) := by
    have : 0 < image.RGB_data.count 255 := List.count_pos_iff.mpr hmax
    omega
  have hcb : channel_bounds 0 (fun k => ((image.RGB_data.count k : Nat) : Int)) =
      some (0, 255) := by
    unfold channel_bounds
    rw [show (255 : Nat) = 254 + 1 from rfl, lower_walk_succ, if_neg p0]
    simp only
    rw [upper_walk_succ, if_neg p255]
  have hb : clip_bounds image 0 = some (0, 255) := by
    simp only [clip_bounds, ht, Bool.false_eq_true, if_false, grey_bounds,
      grey_histogram_eq image hsize, hcb]
    rfl
  rw [processing_eq image 0 0 255 hsize hb]
  congr 1
  have : image.RGB_data.map (rescale_value 0 255) = image.RGB_data := by
    conv_rhs => rw [← List.map_id image.RGB_data]
    exact List.map_congr_left (fun v hv => rescale_value_id v (hbyte v hv))
  rw [this]

/-- C3, evaluated at the 1x1 RGB raster with the pixel (5, 200, 200) and
threshold 0: the per-channel bounds are (5, 5), (200, 200), (200, 200), and
the expanded macros give `old_min = 200` and `old_max = 5`, not the minimum 5
and the maximum 200. -/
theorem rgb_bounds_macro_defect :
    rgb_channel_bounds ⟨[5, 200, 200], 1, 1, true, 3⟩ 0 =
      some ((5, 5), (200, 200), (200, 200)) ∧
    clip_bounds ⟨[5, 200, 200], 1, 1, true, 3⟩ 0 = some (200, 5) := by
  decide

/-- C4 as stated fails: in the 2x1 greyscale raster [100, 100] with
threshold 0 both bounds are 100, the samples are equal to the upper bound,
and `processing` rewrites them to 0, not to 255. -/
theorem upper_saturation_counterexample :
    clip_bounds ⟨[100, 100], 2, 1, false, 2⟩ 0 = some (100, 100) ∧
    processing ⟨[100, 100], 2, 1, false, 2⟩ 0 = some ⟨[0, 0], 2, 1, false, 2⟩ ∧
    ¬ (∀ (old_min old_max : Int) (out : Image) (i v : Nat),
        clip_bounds ⟨[100, 100], 2, 1, false, 2⟩ 0 = some (old_min, old_max) →
        processing ⟨[100, 100], 2, 1, false, 2⟩ 0 = some out →
        [100, 100][i]? = some v → old_max ≤ (v : Int) → out.RGB_data[i]? = some 255) := by
  have hb : clip_bounds ⟨[100, 100], 2, 1, false, 2⟩ 0 = some (100, 100) := by decide
  have hp : processing ⟨[100, 100], 2, 1, false, 2⟩ 0 = some ⟨[0, 0], 2, 1, false, 2⟩ := by
    rw [processing_eq _ 0 100 100 rfl hb]
    decide
  refine ⟨hb, hp, fun h => ?_⟩
  have h0 := h 100 100 ⟨[0, 0], 2, 1, false, 2⟩ 0 100 hb hp (by decide) (by decide)
  exact absurd h0 (by decide)

/-- C4 amended, instance: the 2x2 greyscale raster [10, 10, 245, 245]. -/
theorem upper_saturation_witness :
    ∃ out, processing ⟨[10, 10, 245, 245], 2, 2, false, 4⟩ 0 = some out ∧
      out.RGB_data.length = 4 ∧
      ∀ (i v : Nat), [10, 10, 245, 245][i]? = some v → (10 : Int) < (v : Int) →
        (245 : Int) ≤ (v : Int) → out.RGB_data[i]? = some 255 :=
  upper_saturation ⟨[10, 10, 245, 245], 2, 2, false, 4⟩ 0 10 245 (by decide) (by decide)

/-- C5, evaluated at the 4x1 RGB raster with the pixels (2, 1, 0), (2, 2, 0),
(2, 2, 6), (2, 2, 6) and the thresholds 0 and 1 (both with
`2 * t < width * height`): the lower bound used for the rescale is 1 at
threshold 0 and 0 at threshold 1, so it decreases when the threshold grows. -/
theorem monotonicity_rgb_defect :
    rgb_channel_bounds ⟨[2, 1, 0, 2, 2, 0, 2, 2, 6, 2, 2, 6], 4, 1, true, 12⟩ 0 =
      some ((2, 2), (1, 2), (0, 6)) ∧
    rgb_channel_bounds ⟨[2, 1, 0, 2, 2, 0, 2, 2, 6, 2, 2, 6], 4, 1, true, 12⟩ 1 =
      some ((2, 2), (2, 2), (0, 6)) ∧
    clip_bounds ⟨[2, 1, 0, 2, 2, 0, 2, 2, 6, 2, 2, 6], 4, 1, true, 12⟩ 0 = some (1, 2) ∧
    clip_bounds ⟨[2, 1, 0, 2, 2, 0, 2, 2, 6, 2, 2, 6], 4, 1, true, 12⟩ 1 = some (0, 2) := by
  decide

/-- Supporting C5: the 5x1 greyscale raster [1, 2, 3, 4, 5] with the
thresholds 1 and 2 (both with `2 * t < width * height`): the upper bound is 4
at threshold 1 and 5 at threshold 2, so it increases when the threshold
grows. -/
theorem monotonicity_grey_defect :
    clip_bounds ⟨[1, 2, 3, 4, 5], 5, 1, false, 5⟩ 1 = some (3, 4) ∧
    clip_bounds ⟨[1, 2, 3, 4, 5], 5, 1, false, 5⟩ 2 = some (5, 5) := by
  decide

/-- C6, evaluated at the 2x1 RGB raster with the pixels (0, 5, 5) and
(255, 5, 5), whose minimum sample is 0 and maximum sample is 255, with
threshold 0: the bounds used are `old_min = 5` and `old_max = 255`, and the
samples equal to 5 are rewritten to 0. -/
theorem identity_rgb_defect :
    clip_bounds ⟨[0, 5, 5, 255, 5, 5], 2, 1, true, 6⟩ 0 = some (5, 255) ∧
    processing ⟨[0, 5, 5, 255, 5, 5], 2, 1, true, 6⟩ 0 =
      some ⟨[0, 0, 0, 255, 0, 0], 2, 1, true, 6⟩ := by
  have hb : clip_bounds ⟨[0, 5, 5, 255, 5, 5], 2, 1, true, 6⟩ 0 = some (5, 255) := by decide
  refine ⟨hb, ?_⟩
  rw [processing_eq _ 0 5 255 rfl hb]
  decide

/-- C8 as stated fails: on the 2x2 greyscale raster [10, 10, 245, 245] with
threshold 0 the bound search does not end with `lower = 0`, `upper = 255`. -/
theorem scenario_2x2_counterexample :
    grey_bounds ⟨[10, 10, 245, 245], 2, 2, false, 4⟩ 0 ≠ some (0, 255) := by
  decide

/-- C8, amended. For the 2x2 greyscale raster [10, 10, 245, 245] and
threshold 0, the histogram has bucket 10 = 2 and bucket 245 = 2, and the
bound search moves the bounds over the empty buckets to `lower = 10` and
`upper = 245`. -/
theorem scenario_2x2_bounds :
    (∃ ch, grey_histogram ⟨[10, 10, 245, 245], 2, 2, false, 4⟩ = some ch ∧
      ch 10 = 2 ∧ ch 245 = 2) ∧
    grey_bounds ⟨[10, 10, 245, 245], 2, 2, false, 4⟩ 0 = some (10, 245) := by
  refine ⟨⟨_, grey_histogram_eq _ rfl, by decide, by decide⟩, by decide⟩

/-- C7, instance: the 2x2 greyscale raster [10, 10, 245, 245], threshold 0. -/
theorem full_output_range_witness :
    ∃ out, processing ⟨[10, 10, 245, 245], 2, 2, false, 4⟩ 0 = some out ∧
      0 ∈ out.RGB_data ∧ 255 ∈ out.RGB_data :=
  full_output_range ⟨[10, 10, 245, 245], 2, 2, false, 4⟩ 0 10 245 rfl (by decide) (by decide)
    (by decide) (by decide)

/-- Greyscale part of C6, instance: the 2x2 raster [0, 100, 200, 255]. -/
theorem identity_grey_witness :
    processing ⟨[0, 100, 200, 255], 2, 2, false, 4⟩ 0 =
      some ⟨[0, 100, 200, 255], 2, 2, false, 4⟩ :=
  identity_grey ⟨[0, 100, 200, 255], 2, 2, false, 4⟩ rfl (by decide) (by decide) (by decide)
    (by decide)

theorem digit_value_digit (d : Nat) (hd : d < 10) : digit_value (48 + d) = some d := by
  unfold digit_value
  rw [if_pos (by omega)]
  congr 1
  omega

theorem decimal_digits_scan :
    ∀ (f n acc : Nat) (r : List Nat), n ≤ f →
      ∃ L, scan_digits 10 (decimal_digits f n ++ r) acc = scan_digits 10 r (acc * 10 ^ L + n) := by
  intro f
  induction f with
  | zero =>
    intro n acc r hn
    obtain rfl : n = 0 := by omega
    refine ⟨1, ?_⟩
    simp [decimal_digits, scan_digits, digit_value]
  | succ f ih =>
    intro n acc r hn
    by_cases h : n < 10
    · refine ⟨1, ?_⟩
      simp only [decimal_digits, if_pos h, List.singleton_append, scan_digits,
        digit_value_digit n h, pow_one]
    · obtain ⟨L, hL⟩ := ih (n / 10) acc ((48 + n % 10) :: r) (by omega)
      refine ⟨L + 1, ?_⟩
      have hlt : n % 10 < 10 := by omega
      simp only [decimal_digits, if_neg h, List.append_assoc, List.singleton_append]
      rw [hL]
      simp only [scan_digits, digit_value_digit _ hlt]
      rw [if_pos hlt]
      congr 1
      rw [pow_succ]
      have := Nat.div_add_mod n 10
      nlinarith

theorem decimal_digits_head :
    ∀ (f n : Nat), n ≤ f → 1 ≤ n →
      ∃ d tl, decimal_digits f n = (48 + d) :: tl ∧ 1 ≤ d ∧ d < 10 := by
  intro f
  induction f with
  | zero => intro n h1 h2; omega
  | succ f ih =>
    intro n hn h1
    by_cases h : n < 10
    · exact ⟨n, [], by simp [decimal_digits, h], h1, h⟩
    · obtain ⟨d, tl, e, hd1, hd2⟩ := ih (n / 10) (by omega) (by omega)
      exact ⟨d, tl ++ [48 + n % 10], by simp [decimal_digits, h, e], hd1, hd2⟩

/-- Reading with `%i` what `%i` printed for a positive `int`, when the next
character is a space or a newline. -/
theorem scan_int_print (n : Int) (c : Nat) (r : List Nat) (h1 : 1 ≤ n) (h2 : n ≤ 2147483647)
    (hc : c = 32 ∨ c = 10) :
    scan_int (print_int n ++ c :: r) = some (n, c :: r) := by
  obtain ⟨m, rfl⟩ : ∃ m : Nat, n = m := ⟨n.toNat, by omega⟩
  have hm1 : 1 ≤ m := by omega
  obtain ⟨d, tl, e, hd1, hd2⟩ := decimal_digits_head m m (le_refl _) hm1
  obtain ⟨L, hL⟩ := decimal_digits_scan m m 0 (c :: r) (le_refl _)
  have hp : print_int (m : Int) = decimal_digits m m := by
    unfold print_int decimal
    rw [if_neg (by omega)]
    simp
  have hstop : scan_digits 10 (c :: r) (0 * 10 ^ L + m) = (m, c :: r) := by
    rcases hc with rfl | rfl <;> simp [scan_digits, digit_value]
  have hscan : scan_digits 10 (decimal_digits m m ++ c :: r) 0 = (m, c :: r) := by
    rw [hL, hstop]
  rw [hp]
  have hw : wrap32 (clamp_long (m : Int)) = m := by
    unfold clamp_long
    rw [if_neg (by omega), if_neg (by omega)]
    unfold wrap32
    omega
  have hsk : skip_space ((48 + d) :: (tl ++ c :: r)) = (48 + d) :: (tl ++ c :: r) := by
    have : is_space (48 + d) = false := by
      unfold is_space
      simp
      omega
    simp [skip_space, this]
  have hun : scan_unsigned ((48 + d) :: (tl ++ c :: r)) = some (m, c :: r) := by
    have hnum : scan_number 10 ((48 + d) :: (tl ++ c :: r)) = some (m, c :: r) := by
      unfold scan_number
      simp only [digit_value_digit d hd2, if_pos hd2]
      rw [← List.cons_append, ← e, hscan]
    unfold scan_unsigned
    cases htl : tl ++ c :: r with
    | nil => simp at htl
    | cons c1 s2 =>
      rw [htl] at hnum
      simp only
      rw [if_neg (by omega), if_neg (by omega)]
      exact hnum
  unfold scan_int
  rw [e, List.cons_append, hsk]
  simp only
  rw [if_neg (by omega), if_neg (by omega), hun]
  simp [hw]

theorem skip_space_idem : ∀ s : List Nat, skip_space (skip_space s) = skip_space s := by
  intro s
  induction s with
  | nil => rfl
  | cons c s ih =>
    by_cases h : is_space c = true
    · simp only [skip_space, h, if_true]
      exact ih
    · simp only [skip_space, h]

theorem scan_int_skip (s : List Nat) : scan_int (skip_space s) = scan_int s := by
  unfold scan_int
  rw [skip_space_idem]

theorem scan_int_space (c : Nat) (s : List Nat) (h : is_space c = true) :
    scan_int (c :: s) = scan_int s := by
  unfold scan_int
  simp only [skip_space, h, if_true]

theorem scan_int_255 (data : List Nat) :
    scan_int (50 :: 53 :: 53 :: 10 :: data) = some (255, 10 :: data) := by
  simp [scan_int, skip_space, is_space, scan_unsigned, scan_number, scan_digits, digit_value,
    wrap32, clamp_long]

theorem skip_space_data (data : List Nat)
    (hfirst : ∀ c, data.head? = some c → is_space c = false) :
    skip_space data = data := by
  cases data with
  | nil => rfl
  | cons c s =>
    have := hfirst c rfl
    simp [skip_space, this]

/-- Supporting C10: when the product `width * height` fits an `int`, the
size computed by `read_image` is `width * height * channel_count`. -/
theorem image_size_exact (width height : Int) (type : Bool)
    (hw : 1 ≤ width) (hh : 1 ≤ height) (hfit : width * height ≤ 2147483647) :
    image_size width height type = width * height * (if type then 3 else 1) := by
  have hp : 0 < height * width := Int.mul_pos (by omega) (by omega)
  have hc : height * width = width * height := Int.mul_comm _ _
  have hwrap : wrap32 (height * width) = width * height := by
    unfold wrap32
    rw [hc] at hp ⊢
    omega
  unfold image_size
  cases type <;> simp [hwrap]

/-- Supporting C9: a raster with positive dimensions whose product fits an
`int`, whose buffer holds `width * height * channel_count` bytes and whose
first sample is not a white-space character is read back unchanged from the
bytes `write_image` produces. -/
theorem round_trip_first_not_space (image : Image)
    (hw : 1 ≤ image.width) (hh : 1 ≤ image.height)
    (hfit : image.width * image.height ≤ 2147483647)
    (hsize : image.size = image.width * image.height * (if image.type then 3 else 1))
    (hlen : (image.RGB_data.length : Int) = image.size)
    (hfirst : ∀ c, image.RGB_data.head? = some c → is_space c = false) :
    read_image (write_image image) = Except.ok image := by
  obtain ⟨data, width, height, type, size⟩ := image
  simp only at hw hh hfit hsize hlen hfirst
  have hwle : width ≤ 2147483647 := by nlinarith
  have hhle : height ≤ 2147483647 := by nlinarith
  have hsz : image_size width height type = size := by
    rw [image_size_exact width height type hw hh hfit, hsize]
  have hn : size.toNat = data.length := by omega
  have hs10 : is_space 10 = true := by decide
  have hs32 : is_space 32 = true := by decide
  have h1 := scan_int_print width 32 (print_int height ++ [10, 50, 53, 53, 10] ++ data) hw hwle
    (Or.inl rfl)
  have h2 := scan_int_print height 10 ([50, 53, 53, 10] ++ data) hh hhle (Or.inr rfl)
  have hbody : ∀ t : Nat, (t = 53 ∨ t = 54) → decide (t = 54) = type →
      read_image (80 :: t :: ([10] ++ print_int width ++ [32] ++ print_int height ++
        [10, 50, 53, 53, 10] ++ data)) = Except.ok ⟨data, width, height, type, size⟩ := by
    intro t ht hty
    have hcond : (80 = 80 ∧ t = 53) ∨ (80 = 80 ∧ t = 54) := by omega
    unfold read_image
    simp only [if_pos hcond]
    have e1 : scan_int (skip_space ([10] ++ print_int width ++ [32] ++ print_int height ++
        [10, 50, 53, 53, 10] ++ data)) =
        some (width, 32 :: (print_int height ++ [10, 50, 53, 53, 10] ++ data)) := by
      rw [scan_int_skip]
      simp only [List.singleton_append, List.cons_append, List.append_assoc, List.nil_append]
      rw [scan_int_space 10 _ hs10]
      simpa using h1
    have e2 : scan_int (skip_space (32 :: (print_int height ++ [10, 50, 53, 53, 10] ++ data))) =
        some (height, 10 :: ([50, 53, 53, 10] ++ data)) := by
      rw [scan_int_skip, scan_int_space 32 _ hs32]
      simpa using h2
    have e3 : scan_int (skip_space (10 :: ([50, 53, 53, 10] ++ data))) =
        some (255, 10 :: data) := by
      rw [scan_int_skip, scan_int_space 10 _ hs10]
      exact scan_int_255 data
    have e4 : skip_space (10 :: data) = data := by
      simp only [skip_space, hs10, if_true]
      exact skip_space_data data hfirst
    rw [e1]
    simp only
    rw [e2]
    simp only
    rw [e3]
    simp only
    have c1 : ¬ ((255 : Int) ≠ 255 ∨ width < 1 ∨ height < 1) := by omega
    have c2 : ¬ (size < 0) := by omega
    have c3 : ¬ (data.length < data.length) := by omega
    have c0 : True ∧ t = 53 ∨ True ∧ t = 54 := by simpa using ht
    rw [e4, hty, hsz, hn, if_neg c1, if_neg c2, if_neg c3, List.take_length, if_pos c0]
  unfold write_image
  simp only [hn, List.take_length]
  cases type with
  | false =>
    simp only [Bool.false_eq_true, if_false]
    exact hbody 53 (Or.inl rfl) (by decide)
  | true =>
    simp only [if_true]
    exact hbody 54 (Or.inr rfl) (by decide)

/-- Supporting C9, instance: a 2x1 RGB raster. -/
theorem round_trip_first_not_space_witness :
    read_image (write_image ⟨[77, 32, 10, 0, 1, 255], 2, 1, true, 6⟩) =
      Except.ok ⟨[77, 32, 10, 0, 1, 255], 2, 1, true, 6⟩ :=
  round_trip_first_not_space ⟨[77, 32, 10, 0, 1, 255], 2, 1, true, 6⟩ (by decide) (by decide)
    (by decide) (by decide) (by decide) (by decide)

/-- C9, evaluated at the 1x1 greyscale raster with the sample 32 (a space):
`write_image` writes `P5\n1 1\n255\n` and the byte 32; in `read_image` the
final `\n` of the format `"\n%i %i\n%i\n"` consumes the newline and the
sample byte as white space, `fread` then finds no byte and the process ends
with "Could not read the input file". -/
theorem round_trip_defect :
    write_image ⟨[32], 1, 1, false, 1⟩ = [80, 53, 10, 49, 32, 49, 10, 50, 53, 53, 10, 32] ∧
    read_image (write_image ⟨[32], 1, 1, false, 1⟩) = Except.error Failure.could_not_read := by
  decide

/-- Supporting C10, instance: a 640x480 RGB header. -/
theorem image_size_exact_witness : image_size 640 480 true = 640 * 480 * 3 :=
  image_size_exact 640 480 true (by decide) (by decide) (by decide)

/-- C10, evaluated at the header `P5\n65536 65536\n255\n`: the `int` product
`image.height * image.width` is 2^32, which wraps to 0, so `read_image`
returns with `size = 0` and an empty buffer, where the mathematical product
`width * height * channel_count` is 4294967296. -/
theorem size_overflow_defect :
    read_image [80, 53, 10, 54, 53, 53, 51, 54, 32, 54, 53, 53, 51, 54, 10, 50, 53, 53, 10] =
      Except.ok ⟨[], 65536, 65536, false, 0⟩ ∧
    image_size 65536 65536 false = 0 ∧
    (65536 : Int) * 65536 * 1 = 4294967296 := by
  decide

theorem rescale_value_mono (old_min old_max : Int) (v1 v2 : Nat) (h : v1 ≤ v2) :
    rescale_value old_min old_max v1 ≤ rescale_value old_min old_max v2 := by
  have hc : (v1 : Int) ≤ v2 := by exact_mod_cast h
  by_cases h1 : (v1 : Int) ≤ old_min
  · have : rescale_value old_min old_max v1 = 0 := by simp [rescale_value, h1]
    omega
  · by_cases h2 : (v2 : Int) ≥ old_max
    · have e : rescale_value old_min old_max v2 = 255 := by
        unfold rescale_value
        rw [if_neg (by omega), if_pos h2]
      rw [e]
      exact rescale_value_le _ _ _
    · have m1 := rescale_value_mid old_min old_max v1 (by omega) (by omega)
      have m2 := rescale_value_mid old_min old_max v2 (by omega) (by omega)
      have hd : 0 < old_max - old_min := by omega
      have : 255 * ((v1 : Int) - old_min) / (old_max - old_min) ≤
          255 * ((v2 : Int) - old_min) / (old_max - old_min) :=
        Int.ediv_le_ediv hd (by omega)
      omega

/-- C18. For every pair of bounds (ordered or not) and every two sample
values `v1 <= v2`, the rescale step returns for both and the rescaled value
of `v1` is at most the rescaled value of `v2`. -/
theorem rescale_order (lower upper : Int) (v1 v2 : Nat) (h12 : v1 ≤ v2) :
    ∃ r1 r2, rescale_sample lower upper v1 = some r1 ∧
      rescale_sample lower upper v2 = some r2 ∧ r1 ≤ r2 :=
  ⟨_, _, rescale_sample_eq _ _ _, rescale_sample_eq _ _ _,
    rescale_value_mono lower upper v1 v2 h12⟩

/-- C18, instance: unordered bounds 200 and 50, samples 100 and 220. -/
theorem rescale_order_witness :
    ∃ r1 r2, rescale_sample 200 50 100 = some r1 ∧ rescale_sample 200 50 220 = some r2 ∧
      r1 ≤ r2 :=
  rescale_order 200 50 100 220 (by decide)

/-- C20. The histogram of the concatenation of two greyscale sample
sequences is the bucket-wise sum of their histograms, and the histogram of a
permutation of a sequence is the histogram of the sequence. -/
theorem histogram_additive (xs ys : List Nat) (w1 h1 w2 h2 w3 h3 : Int) :
    ∃ hx hy hz,
      grey_histogram ⟨xs, w1, h1, false, xs.length⟩ = some hx ∧
      grey_histogram ⟨ys, w2, h2, false, ys.length⟩ = some hy ∧
      grey_histogram ⟨xs ++ ys, w3, h3, false, (xs ++ ys).length⟩ = some hz ∧
      (∀ k, hz k = hx k + hy k) ∧
      (∀ (zs : List Nat) (w h : Int), zs.Perm xs →
        grey_histogram ⟨zs, w, h, false, zs.length⟩ = some hx) := by
  refine ⟨_, _, _, grey_histogram_eq _ rfl, grey_histogram_eq _ rfl, grey_histogram_eq _ rfl,
    fun k => ?_, fun zs w h hp => ?_⟩
  · simp only [List.count_append]
    push_cast
    rfl
  · rw [grey_histogram_eq _ rfl]
    congr 1
    funext k
    simp only
    rw [hp.count_eq]

theorem rescale_value_degenerate (b : Int) (v : Nat) :
    rescale_value b b v = if (v : Int) ≤ b then 0 else 255 := by
  unfold rescale_value
  by_cases h : (v : Int) ≤ b
  · rw [if_pos h, if_pos h]
  · rw [if_neg h, if_neg h, if_pos (by omega)]

/-- C16, amended. For every raster and threshold for which the bound search
ends with `upper == lower`, the rescale step never evaluates the division:
`processing` returns, every sample at most `lower` is rewritten to 0 and
every other sample to 255. -/
theorem degenerate_bounds_no_division (image : Image) (noise : Int) (b : Int)
    (hsize : image.size = image.RGB_data.length)
    (hb : clip_bounds image noise = some (b, b)) :
    (∀ v : Nat, rescale_sample b b v = some (if (v : Int) ≤ b then 0 else 255)) ∧
    processing image noise =
      some { image with
        RGB_data := image.RGB_data.map (fun v : Nat => if (v : Int) ≤ b then 0 else 255) } := by
  refine ⟨fun v => by rw [rescale_sample_eq, rescale_value_degenerate], ?_⟩
  rw [processing_eq image noise b b hsize hb]
  congr 2
  exact List.map_congr_left (fun v _ => rescale_value_degenerate b v)

/-- Supporting C14: with the two sections run in program order, the bounds
that the bound search of a greyscale raster produces satisfy
`0 <= lower <= upper <= 255`; and the bound search does produce bounds
whenever some sample value between 1 and 254 occurs more than `t` times. -/
theorem bounds_ordered (image : Image) (t : Int)
    (ht : image.type = false)
    (hsize : image.size = image.RGB_data.length) :
    (∀ lower upper : Int, clip_bounds image t = some (lower, upper) →
      0 ≤ lower ∧ lower ≤ upper ∧ upper ≤ 255) ∧
    (∀ v : Nat, 1 ≤ v → v ≤ 254 → t < (image.RGB_data.count v : Nat) →
      ∃ lower upper : Int, clip_bounds image t = some (lower, upper)) := by
  constructor
  · intro lower upper hb
    obtain ⟨lo, hi, hc, rfl, rfl⟩ := grey_clip_bounds image t lower upper ht hsize hb
    have hord := channel_bounds_ordered t _ (count_nonneg image.RGB_data) lo hi hc
    obtain ⟨_, _, _, a3, _⟩ := channel_bounds_walks t _ lo hi hc
    omega
  · intro v hv1 hv2 hv
    obtain ⟨lo, hi, hc⟩ := channel_bounds_defined t
      (fun k => ((image.RGB_data.count k : Nat) : Int)) (count_nonneg image.RGB_data) v hv1 hv2 hv
    refine ⟨lo, hi, ?_⟩
    simp only [clip_bounds, ht, Bool.false_eq_true, if_false, grey_bounds,
      grey_histogram_eq image hsize, hc]

theorem store_zero (ch : Nat → Int) (i k : Nat) (h0 : ch k = 0) :
    store ch i (ch i + ch k) = ch := by
  funext j
  unfold store
  by_cases e : j = i
  · rw [if_pos e, e, h0, add_zero]
  · rw [if_neg e]

theorem lower_walk_zeros (m : Nat) (hm : m ≤ 254) :
    ∀ (d : Nat) (ch : Nat → Int) (k : Nat), d + k = 255 → k ≤ m →
      (∀ j, j < m → ch j = 0) → 0 < ch m → lower_walk 0 d ch k = some (ch, m) := by
  intro d
  induction d with
  | zero => intro ch k hd hk _ _; omega
  | succ d ih =>
    intro ch k hd hk hz hp
    rw [lower_walk_succ]
    by_cases e : k = m
    · rw [if_neg (by rw [e]; omega), e]
    · have hk0 : ch k = 0 := hz k (by omega)
      rw [if_pos ⟨by omega, by omega⟩, lower_step_eq, if_pos (by omega), store_zero ch _ k hk0]
      exact ih ch (k + 1) (by omega) (by omega) hz hp

theorem upper_walk_zeros (M : Nat) (hM : 1 ≤ M) :
    ∀ (d : Nat) (ch : Nat → Int) (k : Nat), d = k → k ≤ 255 → M ≤ k →
      (∀ j, M < j → j ≤ 255 → ch j = 0) → 0 < ch M → upper_walk 0 d ch k = some (ch, M) := by
  intro d
  induction d with
  | zero => intro ch k hd _ hk _ _; omega
  | succ d ih =>
    intro ch k hd hk255 hk hz hp
    rw [upper_walk_succ]
    by_cases e : k = M
    · rw [if_neg (by rw [e]; omega), e]
    · have hk0 : ch k = 0 := hz k (by omega) hk255
      rw [if_pos ⟨by omega, by omega⟩, upper_step_eq _ _ hk255, if_pos (by omega),
        store_zero ch _ k hk0]
      exact ih ch (k - 1) (by omega) (by omega) (by omega) hz hp

/-- Supporting C12: at threshold 0 the bound search of a greyscale
raster whose least sample `m` is at most 254 and whose greatest sample `M` is
at least 1 ends with `lower = m` and `upper = M`. -/
theorem zero_threshold_bounds (image : Image) (m M : Nat)
    (ht : image.type = false)
    (hsize : image.size = image.RGB_data.length)
    (hm : m ∈ image.RGB_data) (hmin : ∀ v ∈ image.RGB_data, m ≤ v)
    (hM : M ∈ image.RGB_data) (hmax : ∀ v ∈ image.RGB_data, v ≤ M)
    (hm254 : m ≤ 254) (hM1 : 1 ≤ M) (hM255 : M ≤ 255) :
    clip_bounds image 0 = some ((m : Int), (M : Int)) := by
  have hz : ∀ j, j ∉ image.RGB_data → ((image.RGB_data.count j : Nat) : Int) = 0 := fun j hj => by
    rw [List.count_eq_zero_of_not_mem hj]; rfl
  have hlow : lower_walk 0 255 (fun k => ((image.RGB_data.count k : Nat) : Int)) 0 =
      some (_, m) :=
    lower_walk_zeros m hm254 255 _ 0 rfl (by omega)
      (fun j hj => hz j (fun hmem => by have := hmin j hmem; omega))
      (by exact_mod_cast List.count_pos_iff.mpr hm)
  have hup : upper_walk 0 255 (fun k => ((image.RGB_data.count k : Nat) : Int)) 255 =
      some (_, M) :=
    upper_walk_zeros M hM1 255 _ 255 rfl (le_refl _) hM255
      (fun j hj _ => hz j (fun hmem => by have := hmax j hmem; omega))
      (by exact_mod_cast List.count_pos_iff.mpr hM)
  simp only [clip_bounds, ht, Bool.false_eq_true, if_false, grey_bounds,
    grey_histogram_eq image hsize, channel_bounds, hlow, hup]

/-- A greyscale raster with two different sample values is
processed with threshold 0 to a raster that a second run leaves unchanged. -/
theorem idempotence_non_uniform (image : Image) (m M : Nat)
    (ht : image.type = false)
    (hsize : image.size = image.RGB_data.length)
    (hbyte : ∀ v ∈ image.RGB_data, v < 256)
    (hm : m ∈ image.RGB_data) (hmin : ∀ v ∈ image.RGB_data, m ≤ v)
    (hM : M ∈ image.RGB_data) (hmax : ∀ v ∈ image.RGB_data, v ≤ M)
    (hlt : m < M) :
    ∃ out, processing image 0 = some out ∧ processing out 0 = some out := by
  have hM255 : M < 256 := hbyte M hM
  have hb := zero_threshold_bounds image m M ht hsize hm hmin hM hmax (by omega) (by omega)
    (by omega)
  refine ⟨_, processing_eq image 0 m M hsize hb, ?_⟩
  apply identity_grey
  · exact ht
  · simp [hsize]
  · intro v hv
    simp only [List.mem_map] at hv
    obtain ⟨u, _, rfl⟩ := hv
    have := rescale_value_le (m : Int) (M : Int) u
    omega
  · simp only [List.mem_map]
    exact ⟨m, hm, by simp [rescale_value]⟩
  · simp only [List.mem_map]
    refine ⟨M, hM, ?_⟩
    unfold rescale_value
    rw [if_neg (by omega), if_pos (by omega)]

/-- Supporting C11: whenever the arguments are accepted, the input is read
and processed, and the output file cannot be opened, `main` calls
`write_image` on the null stream. -/
theorem main_unwritable_output (th_num : Int) (noise_of : Image → Int) (bytes : List Nat)
    (image out : Image)
    (hth : 0 ≤ th_num)
    (hread : read_image bytes = Except.ok image)
    (hproc : processing image (noise_of image) = some out) :
    main 5 th_num 0 0 noise_of (some bytes) false = Outcome.write_image_null := by
  unfold main
  rw [if_neg (by omega), if_neg (by omega), if_neg (by omega)]
  simp only [hread, hproc]
  rfl

/-- C11, evaluated at a run with accepted arguments, the input file
`P5\n2 1\n255\n` followed by the samples 100, 100, and an output file that
cannot be opened: line 67 tests `file_in`, which is not null, so `main` does
not exit with status 1 and calls `write_image` on the null output stream. -/
theorem unwritable_output_defect :
    main 5 1 0 0 (fun _ => 0) (some [80, 53, 10, 50, 32, 49, 10, 50, 53, 53, 10, 100, 100])
      false = Outcome.write_image_null ∧
    main 5 1 0 0 (fun _ => 0) (some [80, 53, 10, 50, 32, 49, 10, 50, 53, 53, 10, 100, 100])
      false ≠ Outcome.exit 1 Message.no_output_file := by
  decide

/-- Supporting C11, instance: the run of `unwritable_output_defect`. -/
theorem main_unwritable_output_witness :
    main 5 1 0 0 (fun _ => 0) (some [80, 53, 10, 50, 32, 49, 10, 50, 53, 53, 10, 100, 100])
      false = Outcome.write_image_null :=
  main_unwritable_output 1 (fun _ => 0) [80, 53, 10, 50, 32, 49, 10, 50, 53, 53, 10, 100, 100]
    ⟨[100, 100], 2, 1, false, 2⟩ ⟨[0, 0], 2, 1, false, 2⟩ (by decide) (by decide) (by decide)

/-- C12, evaluated at the 5x1 greyscale raster [0, 1, 2, 3, 4] with threshold
2 (`2 * t < width * height`): the bound search ends with `lower = 4` and
`upper = 4`, where the least `k` with more than 2 samples `<= k` is 2 and the
greatest `k` with more than 2 samples `>= k` is 2. -/
theorem bound_search_defect :
    grey_bounds ⟨[0, 1, 2, 3, 4], 5, 1, false, 5⟩ 2 = some (4, 4) ∧
    [0, 1, 2, 3, 4].countP (fun v => v ≤ 2) = 3 ∧ [0, 1, 2, 3, 4].countP (fun v => v ≤ 1) = 2 ∧
    [0, 1, 2, 3, 4].countP (fun v => 2 ≤ v) = 3 ∧ [0, 1, 2, 3, 4].countP (fun v => 3 ≤ v) = 2 := by
  decide

/-- Supporting C12, instance: the 2x2 raster [10, 10, 245, 245]. -/
theorem zero_threshold_bounds_witness :
    clip_bounds ⟨[10, 10, 245, 245], 2, 2, false, 4⟩ 0 = some (((10 : Nat) : Int), ((245 : Nat) : Int)) :=
  zero_threshold_bounds ⟨[10, 10, 245, 245], 2, 2, false, 4⟩ 10 245 rfl (by decide) (by decide)
    (by decide) (by decide) (by decide) (by decide) (by decide) (by decide)

/-- Supporting C13: what one iteration of the lower walk does at a position
`k <= 253`: it moves to `k + 1`, adds bucket `k` to bucket `k + 2` and leaves
every other bucket, bucket `k + 1` included, unchanged. -/
theorem lower_step_spec (ch : Nat → Int) (k : Nat) (hk : k ≤ 253) :
    ∃ ch1, lower_step ch k = some (ch1, k + 1) ∧ ch1 (k + 2) = ch (k + 2) + ch k ∧
      ∀ j, j ≠ k + 2 → ch1 j = ch j := by
  refine ⟨_, by rw [lower_step_eq, if_pos (by omega)], by simp [store], fun j hj => ?_⟩
  simp [store, hj]

/-- Supporting C13, instance: position 0 of an empty histogram. -/
theorem lower_step_spec_witness :
    ∃ ch1, lower_step zero_channel 0 = some (ch1, 0 + 1) ∧
      ch1 (0 + 2) = zero_channel (0 + 2) + zero_channel 0 ∧
      ∀ j, j ≠ 0 + 2 → ch1 j = zero_channel j :=
  lower_step_spec zero_channel 0 (by decide)

/-- C13, evaluated at two taken iterations. Lower walk, raster [0, 1, 1],
threshold 1, position 0 (bucket 0 = 1, bucket 1 = 2, bucket 2 = 0): after the
iteration the position is 1, bucket 1 is still 2 and bucket 2 is 1. Upper
walk, raster [254, 254, 255], threshold 1, position 255 (bucket 255 = 1,
bucket 254 = 2, bucket 253 = 0): after the iteration the position is 254,
bucket 254 is still 2 and bucket 253 is 1. -/
theorem walk_step_defect :
    ((grey_histogram ⟨[0, 1, 1], 3, 1, false, 3⟩).bind fun h => lower_step h 0).map
      (fun s => (s.2, s.1 0, s.1 1, s.1 2)) = some (1, 1, 2, 1) ∧
    ((grey_histogram ⟨[254, 254, 255], 3, 1, false, 3⟩).bind fun h => upper_step h 255).map
      (fun s => (s.2, s.1 255, s.1 254, s.1 253)) = some (254, 1, 2, 1) := by
  decide

/-- Supporting C14, instance: the 2x2 greyscale raster [10, 10, 245, 245],
threshold 0. -/
theorem bounds_ordered_witness :
    (∀ lower upper : Int,
      clip_bounds ⟨[10, 10, 245, 245], 2, 2, false, 4⟩ 0 = some (lower, upper) →
        0 ≤ lower ∧ lower ≤ upper ∧ upper ≤ 255) ∧
    (∀ v : Nat, 1 ≤ v → v ≤ 254 → (0 : Int) < ([10, 10, 245, 245].count v : Nat) →
      ∃ lower upper : Int,
        clip_bounds ⟨[10, 10, 245, 245], 2, 2, false, 4⟩ 0 = some (lower, upper)) :=
  bounds_ordered ⟨[10, 10, 245, 245], 2, 2, false, 4⟩ 0 rfl (by decide)

/-- C15, evaluated at the 5x1 greyscale raster [1, 2, 3, 4, 5] with threshold
2 (`2 * t < width * height`): on the shared array the bounds are `lower = 5`
and `upper = 5`; the upper walk on an untouched copy of the histogram ends at
1, and the lower walk run after that upper walk ends at 1. -/
theorem walk_independence_defect :
    grey_bounds ⟨[1, 2, 3, 4, 5], 5, 1, false, 5⟩ 2 = some (5, 5) ∧
    ((grey_histogram ⟨[1, 2, 3, 4, 5], 5, 1, false, 5⟩).bind fun h =>
      upper_walk 2 255 h 255).map (fun s => s.2) = some 1 ∧
    (((grey_histogram ⟨[1, 2, 3, 4, 5], 5, 1, false, 5⟩).bind fun h =>
      upper_walk 2 255 h 255).bind fun s => lower_walk 2 255 s.1 0).map (fun s => s.2) =
        some 1 := by
  decide

/-- C16 as stated fails: in the 3x1 greyscale raster [60, 60, 60] with
threshold 0 the bound search ends with `upper == lower == 60`, and the
rescale step divides for no sample: `processing` returns [0, 0, 0]. -/
theorem degenerate_bounds_counterexample :
    clip_bounds ⟨[60, 60, 60], 3, 1, false, 3⟩ 0 = some (60, 60) ∧
    ¬ (∃ v ∈ [60, 60, 60], rescale_sample 60 60 v = none) ∧
    processing ⟨[60, 60, 60], 3, 1, false, 3⟩ 0 = some ⟨[0, 0, 0], 3, 1, false, 3⟩ := by
  have hb : clip_bounds ⟨[60, 60, 60], 3, 1, false, 3⟩ 0 = some (60, 60) := by decide
  refine ⟨hb, by decide, ?_⟩
  rw [processing_eq _ 0 60 60 rfl hb]
  decide

/-- C16 amended, instance: the 3x1 greyscale raster [60, 60, 60]. -/
theorem degenerate_bounds_no_division_witness :
    (∀ v : Nat, rescale_sample 60 60 v = some (if (v : Int) ≤ 60 then 0 else 255)) ∧
    processing ⟨[60, 60, 60], 3, 1, false, 3⟩ 0 =
      some { (⟨[60, 60, 60], 3, 1, false, 3⟩ : Image) with
        RGB_data := [60, 60, 60].map (fun v : Nat => if (v : Int) ≤ 60 then 0 else 255) } :=
  degenerate_bounds_no_division ⟨[60, 60, 60], 3, 1, false, 3⟩ 0 60 (by decide) (by decide)

/-- C17, evaluated at two histograms with threshold 0. Raster [255]: after
254 iterations the lower walk is at position 254 with its loop test true, and
the iteration there writes the index `lower_target 254 = 256`, outside
`channel[0..255]`, so the walk has no defined result. Raster [0]: after 254
iterations the upper walk is at position 1 with its loop test true, and the
iteration there writes the index `upper_target 1 = -1`. -/
theorem walk_out_of_bounds_defect :
    lower_target 254 = 256 ∧
    ((grey_histogram ⟨[255], 1, 1, false, 1⟩).bind fun h => lower_walk 0 254 h 0).map
      (fun s => (s.2, decide (s.1 s.2 ≤ 0 ∧ s.2 < 255))) = some (254, true) ∧
    ((grey_histogram ⟨[255], 1, 1, false, 1⟩).bind fun h => lower_walk 0 255 h 0).isSome =
      false ∧
    upper_target 1 = -1 ∧
    ((grey_histogram ⟨[0], 1, 1, false, 1⟩).bind fun h => upper_walk 0 254 h 255).map
      (fun s => (s.2, decide (s.1 s.2 ≤ 0 ∧ s.2 > 0))) = some (1, true) ∧
    ((grey_histogram ⟨[0], 1, 1, false, 1⟩).bind fun h => upper_walk 0 255 h 255).isSome =
      false := by
  decide

/-- Instance: the 2x2 raster [10, 10, 245, 245] is processed with threshold 0
to a raster that a second run leaves unchanged. -/
theorem idempotence_non_uniform_witness :
    ∃ out, processing ⟨[10, 10, 245, 245], 2, 2, false, 4⟩ 0 = some out ∧
      processing out 0 = some out :=
  idempotence_non_uniform ⟨[10, 10, 245, 245], 2, 2, false, 4⟩ 10 245 rfl (by decide)
    (by decide) (by decide) (by decide) (by decide) (by decide) (by decide)

theorem lower_walk_stray_succ (noise : Int) (d : Nat) (ch : Nat → Int) (k : Nat) :
    lower_walk_stray noise (d + 1) ch k =
      if ch k ≤ noise ∧ k < 255 then
        (lower_step_stray ch k).bind fun s => lower_walk_stray noise d s.1 s.2
      else some (ch, k) := rfl

theorem upper_walk_stray_succ (noise : Int) (d : Nat) (ch : Nat → Int) (k : Nat) :
    upper_walk_stray noise (d + 1) ch k =
      if ch k ≤ noise ∧ k > 0 then
        (upper_step_stray ch k).bind fun s => upper_walk_stray noise d s.1 s.2
      else some (ch, k) := rfl

/-- Inside the array the body of the lower walk is `lower_step`. -/
theorem lower_step_stray_of_some (ch : Nat → Int) (k : Nat) (s : (Nat → Int) × Nat)
    (h : lower_step ch k = some s) : lower_step_stray ch k = some s := by
  unfold lower_step at h
  unfold lower_step_stray
  by_cases c : 0 ≤ lower_target k ∧ lower_target k ≤ 255
  · rw [if_pos c] at h ⊢
    exact h
  · rw [if_neg c] at h
    simp at h

/-- Inside the array the body of the upper walk is `upper_step`. -/
theorem upper_step_stray_of_some (ch : Nat → Int) (k : Nat) (s : (Nat → Int) × Nat)
    (h : upper_step ch k = some s) : upper_step_stray ch k = some s := by
  unfold upper_step at h
  unfold upper_step_stray
  by_cases c : 0 ≤ upper_target k ∧ upper_target k ≤ 255
  · rw [if_pos c] at h ⊢
    exact h
  · rw [if_neg c] at h
    simp at h

theorem lower_walk_stray_of_some (noise : Int) :
    ∀ (d : Nat) (ch : Nat → Int) (k : Nat) (r : (Nat → Int) × Nat),
      lower_walk noise d ch k = some r → lower_walk_stray noise d ch k = some r := by
  intro d
  induction d with
  | zero => intro ch k r h; exact h
  | succ d ih =>
    intro ch k r h
    rw [lower_walk_succ] at h
    rw [lower_walk_stray_succ]
    by_cases c : ch k ≤ noise ∧ k < 255
    · rw [if_pos c] at h ⊢
      cases hs : lower_step ch k with
      | none => rw [hs] at h; simp at h
      | some s =>
        rw [hs] at h
        rw [lower_step_stray_of_some ch k s hs]
        exact ih _ _ _ h
    · rw [if_neg c] at h ⊢
      exact h

theorem upper_walk_stray_of_some (noise : Int) :
    ∀ (d : Nat) (ch : Nat → Int) (k : Nat) (r : (Nat → Int) × Nat),
      upper_walk noise d ch k = some r → upper_walk_stray noise d ch k = some r := by
  intro d
  induction d with
  | zero => intro ch k r h; exact h
  | succ d ih =>
    intro ch k r h
    rw [upper_walk_succ] at h
    rw [upper_walk_stray_succ]
    by_cases c : ch k ≤ noise ∧ k > 0
    · rw [if_pos c] at h ⊢
      cases hs : upper_step ch k with
      | none => rw [hs] at h; simp at h
      | some s =>
        rw [hs] at h
        rw [upper_step_stray_of_some ch k s hs]
        exact ih _ _ _ h
    · rw [if_neg c] at h ⊢
      exact h

theorem channel_bounds_stray_of_some (noise : Int) (ch : Nat → Int) (b : Nat × Nat)
    (h : channel_bounds noise ch = some b) : channel_bounds_stray noise ch = some b := by
  unfold channel_bounds at h
  unfold channel_bounds_stray
  cases hl : lower_walk noise 255 ch 0 with
  | none => rw [hl] at h; simp at h
  | some l =>
    obtain ⟨lch, lo⟩ := l
    rw [hl] at h
    simp only at h
    rw [lower_walk_stray_of_some noise 255 ch 0 _ hl]
    simp only
    cases hu : upper_walk noise 255 lch 255 with
    | none => rw [hu] at h; simp at h
    | some u =>
      obtain ⟨uch, hi⟩ := u
      rw [hu] at h
      simp only at h
      rw [upper_walk_stray_of_some noise 255 lch 255 _ hu]
      exact h

theorem clip_bounds_stray_of_some (image : Image) (noise : Int) (b : Int × Int)
    (h : clip_bounds image noise = some b) : clip_bounds_stray image noise = some b := by
  unfold clip_bounds at h
  unfold clip_bounds_stray
  by_cases ht : image.type = true
  · rw [if_pos ht] at h ⊢
    unfold rgb_bounds rgb_channel_bounds at h
    cases hh : rgb_histogram image with
    | none => rw [hh] at h; simp at h
    | some hist =>
      obtain ⟨r, g, bl⟩ := hist
      rw [hh] at h
      simp only at h ⊢
      cases hr : channel_bounds noise r with
      | none => rw [hr] at h; simp at h
      | some rb =>
        rw [hr] at h
        simp only at h
        rw [channel_bounds_stray_of_some noise r rb hr]
        simp only
        cases hg : channel_bounds noise g with
        | none => rw [hg] at h; simp at h
        | some gb =>
          rw [hg] at h
          simp only at h
          rw [channel_bounds_stray_of_some noise g gb hg]
          simp only
          cases hbl : channel_bounds noise bl with
          | none => rw [hbl] at h; simp at h
          | some bb =>
            rw [hbl] at h
            simp only at h
            rw [channel_bounds_stray_of_some noise bl bb hbl]
            exact h
  · rw [if_neg ht] at h ⊢
    unfold grey_bounds at h
    cases hh : grey_histogram image with
    | none => rw [hh] at h; simp at h
    | some ch =>
      rw [hh] at h
      simp only at h ⊢
      cases hc : channel_bounds noise ch with
      | none => rw [hc] at h; simp at h
      | some cb =>
        rw [hc] at h
        simp only at h
        rw [channel_bounds_stray_of_some noise ch cb hc]
        exact h

/-- Whenever `processing` has a result (no walk stores outside its array),
`processing_stray` has the same result. -/
theorem processing_stray_of_some (image : Image) (noise : Int) (out : Image)
    (h : processing image noise = some out) : processing_stray image noise = some out := by
  unfold processing at h
  unfold processing_stray
  cases hb : clip_bounds image noise with
  | none => rw [hb] at h; simp at h
  | some b =>
    rw [hb] at h
    rw [clip_bounds_stray_of_some image noise b hb]
    exact h

theorem run_sections_append (noise : Int) :
    ∀ (a b : List Turn) (s : Sections),
      run_sections noise (a ++ b) s = (run_sections noise a s).bind (run_sections noise b) := by
  intro a
  induction a with
  | nil => intro b s; rfl
  | cons t a ih =>
    intro b s
    cases t with
    | lower =>
      simp only [List.cons_append, run_sections]
      cases lower_section_step noise s with
      | none => rfl
      | some s1 => exact ih b s1
    | upper =>
      simp only [List.cons_append, run_sections]
      cases upper_section_step noise s with
      | none => rfl
      | some s1 => exact ih b s1

theorem lower_section_finished (noise : Int) (ch : Nat → Int) (k K : Nat) (pu : Stage) :
    ∀ n : Nat, run_sections noise (List.replicate n Turn.lower)
      ⟨ch, k, Stage.finished, K, pu⟩ = some ⟨ch, k, Stage.finished, K, pu⟩ := by
  intro n
  induction n with
  | zero => rfl
  | succ n ih =>
    rw [List.replicate_succ, run_sections]
    simp only [lower_section_step, Option.some_bind]
    exact ih

theorem upper_section_finished (noise : Int) (ch : Nat → Int) (k K : Nat) (pl : Stage) :
    ∀ n : Nat, run_sections noise (List.replicate n Turn.upper)
      ⟨ch, k, pl, K, Stage.finished⟩ = some ⟨ch, k, pl, K, Stage.finished⟩ := by
  intro n
  induction n with
  | zero => rfl
  | succ n ih =>
    rw [List.replicate_succ, run_sections]
    simp only [upper_section_step, Option.some_bind]
    exact ih

/-- The first section run alone, for at least `2 * d + 1` steps from
`old_min = k = 255 - d`, is the lower walk. -/
theorem lower_section_run (noise : Int) (K : Nat) (pu : Stage) :
    ∀ (d n : Nat) (ch : Nat → Int) (k : Nat), d + k = 255 → 2 * d + 1 ≤ n →
      run_sections noise (List.replicate n Turn.lower) ⟨ch, k, Stage.test, K, pu⟩ =
        (lower_walk noise d ch k).map fun r => ⟨r.1, r.2, Stage.finished, K, pu⟩ := by
  intro d
  induction d with
  | zero =>
    intro n ch k hk hn
    obtain ⟨n1, rfl⟩ : ∃ n1, n = n1 + 1 := ⟨n - 1, by omega⟩
    have c : ¬ (ch k ≤ noise ∧ k < 255) := by omega
    rw [List.replicate_succ, run_sections]
    simp only [lower_section_step, if_neg c, Option.some_bind]
    rw [lower_section_finished]
    rfl
  | succ d ih =>
    intro n ch k hk hn
    obtain ⟨n2, rfl⟩ : ∃ n2, n = n2 + 1 + 1 := ⟨n - 2, by omega⟩
    rw [List.replicate_succ, run_sections, lower_walk_succ]
    by_cases c : ch k ≤ noise ∧ k < 255
    · simp only [lower_section_step, if_pos c, Option.some_bind]
      rw [List.replicate_succ, run_sections]
      simp only [lower_section_step]
      rw [lower_step_eq]
      by_cases b : k + 2 ≤ 255
      · simp only [if_pos b, Option.some_bind]
        exact ih n2 _ (k + 1) (by omega) (by omega)
      · simp only [if_neg b, Option.none_bind, Option.map_none']
    · simp only [lower_section_step, if_neg c, Option.some_bind]
      rw [lower_section_finished]
      rfl

/-- The second section run alone, for at least `2 * d + 1` steps from
`old_max = d`, is the upper walk. -/
theorem upper_section_run (noise : Int) (k : Nat) (pl : Stage) :
    ∀ (d n : Nat) (ch : Nat → Int) (K : Nat), d = K → K ≤ 255 → 2 * d + 1 ≤ n →
      run_sections noise (List.replicate n Turn.upper) ⟨ch, k, pl, K, Stage.test⟩ =
        (upper_walk noise d ch K).map fun r => ⟨r.1, k, pl, r.2, Stage.finished⟩ := by
  intro d
  induction d with
  | zero =>
    intro n ch K hK hK255 hn
    obtain ⟨n1, rfl⟩ : ∃ n1, n = n1 + 1 := ⟨n - 1, by omega⟩
    have c : ¬ (ch K ≤ noise ∧ K > 0) := by omega
    rw [List.replicate_succ, run_sections]
    simp only [upper_section_step, if_neg c, Option.some_bind]
    rw [upper_section_finished]
    rfl
  | succ d ih =>
    intro n ch K hK hK255 hn
    obtain ⟨n2, rfl⟩ : ∃ n2, n = n2 + 1 + 1 := ⟨n - 2, by omega⟩
    rw [List.replicate_succ, run_sections, upper_walk_succ]
    by_cases c : ch K ≤ noise ∧ K > 0
    · simp only [upper_section_step, if_pos c, Option.some_bind]
      rw [List.replicate_succ, run_sections]
      simp only [upper_section_step]
      rw [upper_step_eq _ _ hK255]
      by_cases b : 2 ≤ K
      · simp only [if_pos b, Option.some_bind]
        exact ih n2 _ (K - 1) (by omega) (by omega) (by omega)
      · simp only [if_neg b, Option.none_bind, Option.map_none']
    · simp only [upper_section_step, if_neg c, Option.some_bind]
      rw [upper_section_finished]
      rfl

theorem channel_bounds_bind (noise : Int) (ch : Nat → Int) :
    channel_bounds noise ch =
      (lower_walk noise 255 ch 0).bind fun l =>
        (upper_walk noise 255 l.1 255).map fun u => (l.2, u.2) := by
  unfold channel_bounds
  cases lower_walk noise 255 ch 0 with
  | none => rfl
  | some l =>
    obtain ⟨lch, lo⟩ := l
    rw [Option.some_bind]
    cases hu : upper_walk noise 255 lch 255 with
    | none => simp only [hu, Option.map_none']
    | some u => simp only [hu, Option.map_some']

theorem scheduled_bounds_bind (noise : Int) (schedule : List Turn) (ch : Nat → Int) :
    scheduled_bounds noise schedule ch =
      (run_sections noise schedule (sections_start ch)).bind fun s =>
        if s.lower = Stage.finished ∧ s.upper = Stage.finished then some (s.old_min, s.old_max)
        else none := by
  unfold scheduled_bounds
  cases run_sections noise schedule (sections_start ch) with
  | none => rfl
  | some s => rfl

/-- The schedule that runs the first section to its end and then the second
one gives the bounds of `channel_bounds`: the program built without OpenMP
or run by one thread. -/
theorem scheduled_bounds_in_order (noise : Int) (ch : Nat → Int) :
    scheduled_bounds noise (List.replicate 511 Turn.lower ++ List.replicate 511 Turn.upper) ch =
      channel_bounds noise ch := by
  have h1 : run_sections noise (List.replicate 511 Turn.lower)
      ⟨ch, 0, Stage.test, 255, Stage.test⟩ =
        (lower_walk noise 255 ch 0).map fun r => ⟨r.1, r.2, Stage.finished, 255, Stage.test⟩ :=
    lower_section_run noise 255 Stage.test 255 511 ch 0 (by omega) (by omega)
  have h2 : ∀ (lch : Nat → Int) (lo : Nat),
      run_sections noise (List.replicate 511 Turn.upper)
        ⟨lch, lo, Stage.finished, 255, Stage.test⟩ =
          (upper_walk noise 255 lch 255).map fun r =>
            ⟨r.1, lo, Stage.finished, r.2, Stage.finished⟩ :=
    fun lch lo => upper_section_run noise lo Stage.finished 255 511 lch 255 (by omega)
      (by omega) (by omega)
  rw [scheduled_bounds_bind, channel_bounds_bind, run_sections_append]
  unfold sections_start
  rw [h1]
  generalize run_sections noise (List.replicate 511 Turn.upper) = second at h2 ⊢
  generalize lower_walk noise 255 ch 0 = w
  cases w with
  | none => rfl
  | some l =>
    obtain ⟨lch, lo⟩ := l
    rw [Option.map_some', Option.some_bind, Option.some_bind, h2]
    show _ = Option.map (fun u => (lo, u.2)) (upper_walk noise 255 lch 255)
    generalize upper_walk noise 255 lch 255 = w2
    cases w2 with
    | none => rfl
    | some u => rfl

/-- C14, failing input: the 3x1 greyscale raster [1, 2, 3] at threshold 1
(`2 * 1 < 3`), the two sections run by two threads. The second section runs
first: it walks from 255 down over the empty buckets and finds
`channel[3] = 1 <= 1` (505 steps). The first section then runs to its end (7
steps): at 1 it adds bucket 1 to bucket 3, which becomes 2, at 2 it finds
`channel[2] = 1 <= 1`, and it stops at 3. The second section resumes with
the statement whose condition it has evaluated: it adds bucket 3 to bucket
1, which becomes 3, at 2 it finds `channel[2] = 1 <= 1`, and it stops at 1
(4 steps). The block ends with `old_min = 3` and `old_max = 1`, where the
claim says `lower <= upper`. In program order the same block ends with
`old_min = 3` and `old_max = 3`. -/
theorem bounds_crossing_defect :
    (grey_histogram ⟨[1, 2, 3], 3, 1, false, 3⟩).bind
      (scheduled_bounds 1 (List.replicate 505 Turn.upper ++ List.replicate 7 Turn.lower ++
        List.replicate 4 Turn.upper)) = some (3, 1) ∧
    (grey_histogram ⟨[1, 2, 3], 3, 1, false, 3⟩).bind
      (scheduled_bounds 1 (List.replicate 511 Turn.lower ++ List.replicate 511 Turn.upper)) =
        some (3, 3) ∧
    clip_bounds ⟨[1, 2, 3], 3, 1, false, 3⟩ 1 = some (3, 3) := by
  decide

theorem zero_inv_lower (ch : Nat → Int) (hnn : ∀ j, 0 ≤ ch j) (s s1 : Sections)
    (hi : ZeroInv ch s) (h : lower_section_step 0 s = some s1) : ZeroInv ch s1 := by
  obtain ⟨c, k, pl, K, pu⟩ := s
  obtain ⟨ha, h1, h2, h3, h4, h5, h6, h7, h8, h9⟩ := hi
  simp only at ha h1 h2 h3 h4 h5 h6 h7 h8 h9
  subst ha
  cases pl with
  | test =>
    simp only [lower_section_step] at h
    by_cases c0 : c k ≤ 0 ∧ k < 255
    · rw [if_pos c0] at h
      simp only [Option.some.injEq] at h
      subst h
      exact ⟨rfl, h1, h2, fun _ => le_antisymm c0.1 (hnn k), fun e => by simp at e, h5, h6, h7,
        h8, h9⟩
    · rw [if_neg c0] at h
      simp only [Option.some.injEq] at h
      subst h
      refine ⟨rfl, h1, h2, fun e => by simp at e, fun _ => ?_, h5, h6, h7, h8, h9⟩
      show 0 < c k
      have := hnn k
      by_contra hc
      exact c0 ⟨by omega, by omega⟩
  | body =>
    have hk0 : c k = 0 := h3 rfl
    simp only [lower_section_step] at h
    rw [lower_step_eq] at h
    by_cases b : k + 2 ≤ 255
    · rw [if_pos b, store_zero c _ k hk0] at h
      simp only [Option.some.injEq] at h
      subst h
      refine ⟨rfl, by simp only; omega, ?_, fun e => by simp at e, fun e => by simp at e, h5, h6,
        h7, h8, h9⟩
      intro j hj
      simp only at hj
      by_cases e : j = k
      · rw [e]; exact hk0
      · exact h2 j (by omega)
    · rw [if_neg b] at h
      simp at h
  | finished =>
    simp only [lower_section_step, Option.some.injEq] at h
    subst h
    exact ⟨rfl, h1, h2, h3, h4, h5, h6, h7, h8, h9⟩

theorem zero_inv_upper (ch : Nat → Int) (hnn : ∀ j, 0 ≤ ch j) (s s1 : Sections)
    (hi : ZeroInv ch s) (h : upper_section_step 0 s = some s1) : ZeroInv ch s1 := by
  obtain ⟨c, k, pl, K, pu⟩ := s
  obtain ⟨ha, h1, h2, h3, h4, h5, h6, h7, h8, h9⟩ := hi
  simp only at ha h1 h2 h3 h4 h5 h6 h7 h8 h9
  subst ha
  cases pu with
  | test =>
    simp only [upper_section_step] at h
    by_cases c0 : c K ≤ 0 ∧ K > 0
    · rw [if_pos c0] at h
      simp only [Option.some.injEq] at h
      subst h
      exact ⟨rfl, h1, h2, h3, h4, h5, h6, h7, fun _ => le_antisymm c0.1 (hnn K),
        fun e => by simp at e⟩
    · rw [if_neg c0] at h
      simp only [Option.some.injEq] at h
      subst h
      refine ⟨rfl, h1, h2, h3, h4, h5, h6, h7, fun e => by simp at e, fun _ => ?_⟩
      show 0 < c K
      have := hnn K
      by_contra hc
      exact c0 ⟨by omega, by omega⟩
  | body =>
    have hk0 : c K = 0 := h8 rfl
    simp only [upper_section_step] at h
    rw [upper_step_eq _ _ h6] at h
    by_cases b : 2 ≤ K
    · rw [if_pos b, store_zero c _ K hk0] at h
      simp only [Option.some.injEq] at h
      subst h
      refine ⟨rfl, h1, h2, h3, h4, by simp only; omega, by simp only; omega, ?_,
        fun e => by simp at e, fun e => by simp at e⟩
      intro j hj hj255
      simp only at hj
      by_cases e : j = K
      · rw [e]; exact hk0
      · exact h7 j (by omega) hj255
    · rw [if_neg b] at h
      simp at h
  | finished =>
    simp only [upper_section_step, Option.some.injEq] at h
    subst h
    exact ⟨rfl, h1, h2, h3, h4, h5, h6, h7, h8, h9⟩

theorem zero_inv_run (ch : Nat → Int) (hnn : ∀ j, 0 ≤ ch j) :
    ∀ (schedule : List Turn) (s s1 : Sections), ZeroInv ch s →
      run_sections 0 schedule s = some s1 → ZeroInv ch s1 := by
  intro schedule
  induction schedule with
  | nil =>
    intro s s1 hi h
    simp only [run_sections, Option.some.injEq] at h
    rw [← h]
    exact hi
  | cons t schedule ih =>
    intro s s1 hi h
    cases t with
    | lower =>
      rw [run_sections] at h
      cases hs : lower_section_step 0 s with
      | none => rw [hs] at h; simp at h
      | some s2 =>
        rw [hs] at h
        exact ih s2 s1 (zero_inv_lower ch hnn s s2 hi hs) h
    | upper =>
      rw [run_sections] at h
      cases hs : upper_section_step 0 s with
      | none => rw [hs] at h; simp at h
      | some s2 =>
        rw [hs] at h
        exact ih s2 s1 (zero_inv_upper ch hnn s s2 hi hs) h

theorem zero_inv_start (ch : Nat → Int) : ZeroInv ch (sections_start ch) :=
  ⟨rfl, by simp [sections_start], fun j hj => by simp [sections_start] at hj,
    fun e => by simp [sections_start] at e, fun e => by simp [sections_start] at e,
    by simp [sections_start], by simp [sections_start],
    fun j hj hj2 => by simp only [sections_start] at hj; omega,
    fun e => by simp [sections_start] at e, fun e => by simp [sections_start] at e⟩

/-- At threshold 0 the bounds do not depend on how the two sections
interleave: whenever a schedule runs both sections of a histogram to the end
of their loops inside the array, the bounds are those of `channel_bounds`. -/
theorem zero_threshold_any_schedule (ch : Nat → Int) (hnn : ∀ j, 0 ≤ ch j)
    (schedule : List Turn) (b : Nat × Nat)
    (h : scheduled_bounds 0 schedule ch = some b) : channel_bounds 0 ch = some b := by
  rw [scheduled_bounds_bind] at h
  cases hr : run_sections 0 schedule (sections_start ch) with
  | none => rw [hr] at h; simp at h
  | some s =>
    rw [hr, Option.some_bind] at h
    by_cases hf : s.lower = Stage.finished ∧ s.upper = Stage.finished
    · rw [if_pos hf] at h
      simp only [Option.some.injEq] at h
      have hinv := zero_inv_run ch hnn schedule _ s (zero_inv_start ch) hr
      have hlow : lower_walk 0 255 ch 0 = some (ch, s.old_min) :=
        lower_walk_zeros s.old_min hinv.low_le 255 ch 0 rfl (Nat.zero_le _) hinv.low_passed
          (hinv.low_done hf.1)
      have hup : upper_walk 0 255 ch 255 = some (ch, s.old_max) :=
        upper_walk_zeros s.old_max hinv.high_ge 255 ch 255 rfl (le_refl _) hinv.high_le
          hinv.high_passed (hinv.high_done hf.2)
      rw [channel_bounds_bind, hlow, Option.some_bind]
      show Option.map (fun u => (s.old_min, u.2)) (upper_walk 0 255 ch 255) = some b
      rw [hup, ← h]
      rfl
    · rw [if_neg hf] at h
      simp at h

/-- Instance: the raster [10, 10, 245, 245] at threshold 0, the second section
run before the first. -/
theorem zero_threshold_any_schedule_witness :
    (grey_histogram ⟨[10, 10, 245, 245], 2, 2, false, 4⟩).bind (channel_bounds 0) =
      some (10, 245) := by
  have hh : grey_histogram ⟨[10, 10, 245, 245], 2, 2, false, 4⟩ =
      some (fun k => (([10, 10, 245, 245].count k : Nat) : Int)) :=
    grey_histogram_eq ⟨[10, 10, 245, 245], 2, 2, false, 4⟩ rfl
  rw [hh, Option.some_bind]
  exact zero_threshold_any_schedule _ (fun j => Int.ofNat_nonneg _)
    (List.replicate 511 Turn.upper ++ List.replicate 511 Turn.lower) (10, 245) (by decide)

end Brightness
